import Mathlib

/-!
Verification development for the FSD-ML hybrid recommendation engine
(Backend/ml/recommenders: collaborative_filter.py, content_based.py,
gnn_recommender.py, hybrid_ensemble.py).

Numeric scores are modelled as rationals; Python float arithmetic on the
code paths below is exact decimal arithmetic, so rationals are faithful.
Python dictionaries are modelled as association lists; dict construction
with overwriting assignment is modelled by dictInsert, and dict lookup by
alookup (first matching key, which is the unique one for a built dict).
Python list.sort with a key and reverse=True is a stable descending sort,
modelled by the stable insertion sort sortDesc.  Fallible operations
(Python statements that can raise, such as division by a data-dependent
zero or an out-of-range index) are modelled with Option: none is a raised
exception.
-/

namespace FSDML

/-- Association-list lookup, first matching key wins (Python dict lookup
for dicts, which never hold duplicate keys). -/
def alookup {α β : Type} [DecidableEq α] (l : List (α × β)) (k : α) : Option β :=
  match l with
  | [] => none
  | p :: t => if p.1 = k then some p.2 else alookup t k

/-- Dot product of two equal-length vectors (numpy a @ b). -/
def dot (a b : List ℚ) : ℚ :=
  (List.zipWith (fun x y => x * y) a b).sum

/-- Python min over a list of scores (0 on the empty list, unreached). -/
def listMin : List ℚ → ℚ
  | [] => 0
  | x :: xs => xs.foldl min x

/-- Python max over a list of scores (0 on the empty list, unreached). -/
def listMax : List ℚ → ℚ
  | [] => 0
  | x :: xs => xs.foldl max x

/-- Insert an element into a descending-sorted list, before the first
element whose key is not larger: this is the insertion step of a stable
descending sort. -/
def insertDesc {α : Type} (key : α → ℚ) (a : α) : List α → List α
  | [] => [a]
  | b :: l => if key b ≤ key a then a :: b :: l else b :: insertDesc key a l

/-- Stable descending sort by a rational key: the behaviour of Python
list.sort(key=..., reverse=True), which keeps tied elements in input
order. -/
def sortDesc {α : Type} (key : α → ℚ) : List α → List α
  | [] => []
  | a :: l => insertDesc key a (sortDesc key l)

/-- Insert an element into an ascending-sorted list, before the first
element whose key is not smaller (stable ascending insertion step). -/
def insertAsc {α : Type} (key : α → ℚ) (a : α) : List α → List α
  | [] => [a]
  | b :: l => if key a ≤ key b then a :: b :: l else b :: insertAsc key a l

/-- Stable ascending sort by a rational key (models numpy argsort when
applied to an enumerated list; numpy leaves tie order to the sort kind,
we fix the stable order). -/
def sortAsc {α : Type} (key : α → ℚ) : List α → List α
  | [] => []
  | a :: l => insertAsc key a (sortAsc key l)

/-- Effectful map over a list where each element can fail: the Python
loop that computes one value per element and propagates the first raised
exception. -/
def mapMOpt {α β : Type} (f : α → Option β) : List α → Option (List β)
  | [] => some []
  | a :: l =>
    match f a, mapMOpt f l with
    | some b, some bs => some (b :: bs)
    | _, _ => none

/-- Python dict assignment d[k] = v: overwrite in place if the key is
present, else append the binding at the end. -/
def dictInsert {β : Type} (d : List (String × β)) (k : String) (v : β) :
    List (String × β) :=
  if d.any (fun p => p.1 = k) then
    d.map (fun p => if p.1 = k then (k, v) else p)
  else d ++ [(k, v)]

/-- Python int() applied to a rational: truncation toward zero. -/
def pyInt (q : ℚ) : ℤ :=
  if 0 ≤ q then Int.floor q else -Int.floor (-q)

/-! Helper lemmas about the list utilities. -/

theorem alookup_eq_some_mem {α β : Type} [DecidableEq α]
    {l : List (α × β)} {k : α} {v : β} (h : alookup l k = some v) :
    (k, v) ∈ l := by
  induction l with
  | nil => simp [alookup] at h
  | cons p t ih =>
    by_cases hp : p.1 = k
    · simp only [alookup, if_pos hp, Option.some.injEq] at h
      subst h
      rw [← hp]
      simp
    · simp only [alookup, if_neg hp] at h
      exact List.mem_cons_of_mem _ (ih h)

theorem alookup_isSome_iff {α β : Type} [DecidableEq α]
    (l : List (α × β)) (k : α) :
    (alookup l k).isSome ↔ k ∈ l.map Prod.fst := by
  induction l with
  | nil => simp [alookup]
  | cons p t ih =>
    by_cases hp : p.1 = k
    · simp [alookup, hp]
    · simp [alookup, hp, ih, Ne.symm hp]

theorem alookup_map_self {β : Type} (l : List String) (f : String → β)
    (k : String) (hk : k ∈ l) :
    alookup (l.map (fun id => (id, f id))) k = some (f k) := by
  induction l with
  | nil => simp at hk
  | cons a t ih =>
    by_cases ha : a = k
    · subst ha; simp [alookup]
    · rcases List.mem_cons.mp hk with h | h
      · exact absurd h.symm ha
      · simp [alookup, ha, ih h]

theorem listMin_le {l : List ℚ} {x : ℚ} (hx : x ∈ l) : listMin l ≤ x := by
  have key : ∀ (t : List ℚ) (a : ℚ), t.foldl min a ≤ a ∧ ∀ y ∈ t, t.foldl min a ≤ y := by
    intro t
    induction t with
    | nil => intro a; simp
    | cons b t ih =>
      intro a
      have h1 := (ih (min a b)).1
      have h2 := (ih (min a b)).2
      refine ⟨le_trans h1 (min_le_left _ _), ?_⟩
      intro y hy
      rcases List.mem_cons.mp hy with hy | hy
      · exact le_trans h1 (hy ▸ min_le_right _ _)
      · exact h2 y hy
  cases l with
  | nil => simp at hx
  | cons a t =>
    rcases List.mem_cons.mp hx with hx | hx
    · exact hx ▸ (key t a).1
    · exact (key t a).2 x hx

theorem le_listMax {l : List ℚ} {x : ℚ} (hx : x ∈ l) : x ≤ listMax l := by
  have key : ∀ (t : List ℚ) (a : ℚ), a ≤ t.foldl max a ∧ ∀ y ∈ t, y ≤ t.foldl max a := by
    intro t
    induction t with
    | nil => intro a; simp
    | cons b t ih =>
      intro a
      have h1 := (ih (max a b)).1
      have h2 := (ih (max a b)).2
      refine ⟨le_trans (le_max_left _ _) h1, ?_⟩
      intro y hy
      rcases List.mem_cons.mp hy with hy | hy
      · exact le_trans (hy ▸ le_max_right _ _) h1
      · exact h2 y hy
  cases l with
  | nil => simp at hx
  | cons a t =>
    rcases List.mem_cons.mp hx with hx | hx
    · exact hx ▸ (key t a).1
    · exact (key t a).2 x hx

theorem insertDesc_perm {α : Type} (key : α → ℚ) (a : α) (l : List α) :
    List.Perm (insertDesc key a l) (a :: l) := by
  induction l with
  | nil => simp [insertDesc]
  | cons b t ih =>
    by_cases h : key b ≤ key a
    · simp [insertDesc, h]
    · simp only [insertDesc, if_neg h]
      exact ((ih.cons b).trans (List.Perm.swap a b t))

theorem sortDesc_perm {α : Type} (key : α → ℚ) (l : List α) :
    List.Perm (sortDesc key l) l := by
  induction l with
  | nil => simp [sortDesc]
  | cons a t ih =>
    exact (insertDesc_perm key a (sortDesc key t)).trans (ih.cons a)

theorem mem_sortDesc {α : Type} {key : α → ℚ} {l : List α} {x : α} :
    x ∈ sortDesc key l ↔ x ∈ l :=
  (sortDesc_perm key l).mem_iff

theorem insertDesc_pairwise {α : Type} {key : α → ℚ} {a : α} {l : List α}
    (hl : l.Pairwise (fun x y => key y ≤ key x)) :
    (insertDesc key a l).Pairwise (fun x y => key y ≤ key x) := by
  induction l with
  | nil => simp [insertDesc]
  | cons b t ih =>
    rcases List.pairwise_cons.mp hl with ⟨hb, ht⟩
    by_cases h : key b ≤ key a
    · simp only [insertDesc, if_pos h]
      refine List.pairwise_cons.mpr ⟨?_, hl⟩
      intro y hy
      rcases List.mem_cons.mp hy with hy | hy
      · exact hy ▸ h
      · exact le_trans (hb y hy) h
    · simp only [insertDesc, if_neg h]
      refine List.pairwise_cons.mpr ⟨?_, ih ht⟩
      intro y hy
      rcases List.mem_cons.mp ((insertDesc_perm key a t).mem_iff.mp hy) with hy2 | hy2
      · exact hy2 ▸ le_of_not_le h
      · exact hb y hy2

theorem sortDesc_pairwise {α : Type} (key : α → ℚ) (l : List α) :
    (sortDesc key l).Pairwise (fun x y => key y ≤ key x) := by
  induction l with
  | nil => simp [sortDesc]
  | cons a t ih => exact insertDesc_pairwise ih

theorem insertDesc_filter_key {α : Type} (key : α → ℚ) (a : α) (l : List α)
    (q : ℚ) :
    (insertDesc key a l).filter (fun x => decide (key x = q)) =
      if key a = q then a :: l.filter (fun x => decide (key x = q))
      else l.filter (fun x => decide (key x = q)) := by
  induction l with
  | nil =>
    by_cases hq : key a = q <;> simp [insertDesc, List.filter_cons, hq]
  | cons b t ih =>
    by_cases h : key b ≤ key a
    · simp only [insertDesc, if_pos h]
      by_cases hq : key a = q <;> simp [List.filter_cons, hq]
    · have hab : key a < key b := lt_of_not_le h
      simp only [insertDesc, if_neg h]
      rw [List.filter_cons, ih]
      by_cases hq : key a = q
      · have hbq : ¬ (key b = q) := by
          intro hb; rw [hb, hq] at hab; exact lt_irrefl q hab
        simp [List.filter_cons, hq, hbq]
      · by_cases hbq : key b = q <;>
          simp [List.filter_cons, hq, hbq]

theorem sortDesc_filter_key {α : Type} (key : α → ℚ) (l : List α) (q : ℚ) :
    (sortDesc key l).filter (fun x => decide (key x = q)) =
      l.filter (fun x => decide (key x = q)) := by
  induction l with
  | nil => simp [sortDesc]
  | cons a t ih =>
    simp only [sortDesc]
    rw [insertDesc_filter_key, ih, List.filter_cons]
    by_cases hq : key a = q <;> simp [hq]

theorem insertAsc_perm {α : Type} (key : α → ℚ) (a : α) (l : List α) :
    List.Perm (insertAsc key a l) (a :: l) := by
  induction l with
  | nil => simp [insertAsc]
  | cons b t ih =>
    by_cases h : key a ≤ key b
    · simp [insertAsc, h]
    · simp only [insertAsc, if_neg h]
      exact ((ih.cons b).trans (List.Perm.swap a b t))

theorem sortAsc_perm {α : Type} (key : α → ℚ) (l : List α) :
    List.Perm (sortAsc key l) l := by
  induction l with
  | nil => simp [sortAsc]
  | cons a t ih =>
    exact (insertAsc_perm key a (sortAsc key t)).trans (ih.cons a)

theorem insertAsc_pairwise {α : Type} {key : α → ℚ} {a : α} {l : List α}
    (hl : l.Pairwise (fun x y => key x ≤ key y)) :
    (insertAsc key a l).Pairwise (fun x y => key x ≤ key y) := by
  induction l with
  | nil => simp [insertAsc]
  | cons b t ih =>
    rcases List.pairwise_cons.mp hl with ⟨hb, ht⟩
    by_cases h : key a ≤ key b
    · simp only [insertAsc, if_pos h]
      refine List.pairwise_cons.mpr ⟨?_, hl⟩
      intro y hy
      rcases List.mem_cons.mp hy with hy | hy
      · exact hy ▸ h
      · exact le_trans h (hb y hy)
    · simp only [insertAsc, if_neg h]
      refine List.pairwise_cons.mpr ⟨?_, ih ht⟩
      intro y hy
      rcases List.mem_cons.mp ((insertAsc_perm key a t).mem_iff.mp hy) with hy2 | hy2
      · exact hy2 ▸ le_of_not_le h
      · exact hb y hy2

theorem sortAsc_pairwise {α : Type} (key : α → ℚ) (l : List α) :
    (sortAsc key l).Pairwise (fun x y => key x ≤ key y) := by
  induction l with
  | nil => simp [sortAsc]
  | cons a t ih => exact insertAsc_pairwise ih

theorem mapMOpt_isSome {α β : Type} {f : α → Option β} {l : List α}
    (h : ∀ a ∈ l, (f a).isSome) :
    ∃ out, mapMOpt f l = some out ∧ out.length = l.length := by
  induction l with
  | nil => exact ⟨[], rfl, rfl⟩
  | cons a t ih =>
    rcases Option.isSome_iff_exists.mp (h a (List.mem_cons_self a t)) with ⟨b, hb⟩
    rcases ih (fun x hx => h x (List.mem_cons_of_mem a hx)) with ⟨out, hout, hlen⟩
    exact ⟨b :: out, by simp [mapMOpt, hb, hout], by simp [hlen]⟩

theorem mapMOpt_mem {α β : Type} {f : α → Option β} {l : List α} {out : List β}
    (h : mapMOpt f l = some out) :
    ∀ b ∈ out, ∃ a ∈ l, f a = some b := by
  induction l generalizing out with
  | nil =>
    simp [mapMOpt] at h
    subst h; simp
  | cons a t ih =>
    simp only [mapMOpt] at h
    cases hfa : f a with
    | none => rw [hfa] at h; simp at h
    | some b0 =>
      rw [hfa] at h
      cases hft : mapMOpt f t with
      | none => rw [hft] at h; simp at h
      | some bs =>
        rw [hft] at h
        simp at h
        subst h
        intro b hb
        rcases List.mem_cons.mp hb with hb | hb
        · exact ⟨a, List.mem_cons_self a t, hb ▸ hfa⟩
        · rcases ih hft b hb with ⟨x, hx, hfx⟩
          exact ⟨x, List.mem_cons_of_mem a hx, hfx⟩

theorem mem_dictInsert {β : Type} {d : List (String × β)} {k : String} {v : β}
    {p : String × β} (hp : p ∈ dictInsert d k v) :
    p ∈ d ∨ p.2 = v := by
  by_cases h : d.any (fun p => p.1 = k)
  · simp only [dictInsert, if_pos h, List.mem_map] at hp
    rcases hp with ⟨q, hq, hqe⟩
    by_cases hqk : q.1 = k
    · right; rw [if_pos hqk] at hqe; rw [← hqe]
    · left; rw [if_neg hqk] at hqe; exact hqe ▸ hq
  · simp only [dictInsert, if_neg h, List.mem_append, List.mem_singleton] at hp
    rcases hp with hp | hp
    · exact Or.inl hp
    · right; rw [hp]

theorem dictInsert_fresh {β : Type} (d : List (String × β)) (k : String) (v : β)
    (h : k ∉ d.map Prod.fst) :
    dictInsert d k v = d ++ [(k, v)] := by
  have : d.any (fun p => p.1 = k) = false := by
    rw [List.any_eq_false]
    intro p hp
    simp only [decide_eq_true_eq]
    intro he
    exact h (List.mem_map.mpr ⟨p, hp, he⟩)
  simp [dictInsert, this]

/-!
Embedding of CollaborativeFilter (collaborative_filter.py).  Model
parameters are Option-valued exactly as the Python attributes start as
None and are filled in by training; the id maps are association lists
from external string ids to dense indices.  List indexing that Python
would perform with a raw index is modelled with getElem?; an
out-of-bounds access (an IndexError) surfaces as a none result of
predict.
-/

structure CFModel where
  user_id_map : List (String × Nat) := []
  item_id_map : List (String × Nat) := []
  reverse_item_map : List (Nat × String) := []
  user_bias : Option (List ℚ) := none
  item_bias : Option (List ℚ) := none
  user_factors : Option (List (List ℚ)) := none
  item_factors : Option (List (List ℚ)) := none
  global_bias : ℚ := 0
  is_trained : Bool := false

namespace CollaborativeFilter

/-- Score of a single (user, item) pair inside CollaborativeFilter.predict
(the body of the per-item loop, lines 263-294): bias fallbacks for unknown
ids, full factor model for known pairs.  none is an IndexError. -/
def predict_score (cf : CFModel) (user_id : String) (item_id : String) :
    Option ℚ :=
  match alookup cf.user_id_map user_id with
  | none =>
    match cf.item_bias with
    | some ib =>
      match alookup cf.item_id_map item_id with
      | some item_idx => (ib[item_idx]?).map (fun b => cf.global_bias + b)
      | none => some cf.global_bias
    | none => some cf.global_bias
  | some user_idx =>
    match alookup cf.item_id_map item_id with
    | none =>
      match cf.user_bias with
      | some ub => (ub[user_idx]?).map (fun b => cf.global_bias + b)
      | none => some cf.global_bias
    | some item_idx =>
      match cf.user_bias, cf.item_bias, cf.user_factors, cf.item_factors with
      | some ub, some ib, some uf, some itf =>
        match ub[user_idx]?, ib[item_idx]?, uf[user_idx]?, itf[item_idx]? with
        | some b1, some b2, some v1, some v2 =>
          some (cf.global_bias + b1 + b2 + dot v1 v2)
        | _, _, _, _ => none
      | _, _, _, _ => some cf.global_bias

/-- CollaborativeFilter.predict: zeros when untrained, otherwise one
score per candidate item. -/
def predict (cf : CFModel) (user_id : String) (item_ids : List String) :
    Option (List ℚ) :=
  if cf.is_trained = false then some (item_ids.map (fun _ => (0 : ℚ)))
  else mapMOpt (predict_score cf user_id) item_ids

/-- CollaborativeFilter.recommend_items: predict, zip with the candidate
ids, stable descending sort by score, truncate to top_k. -/
def recommend_items (cf : CFModel) (user_id : String)
    (item_candidates : List String) (top_k : Nat) :
    Option (List (String × ℚ)) :=
  if item_candidates.isEmpty then some []
  else
    (predict cf user_id item_candidates).map (fun scores =>
      (sortDesc Prod.snd (item_candidates.zip scores)).take top_k)

/-- CollaborativeFilter.get_similar_items: dot-product similarities of
every item factor row against the query item row, numpy
argsort()[::-1][1:top_k+1] (drop the top entry, keep the next top_k),
mapped back through reverse_item_map. -/
def get_similar_items (cf : CFModel) (item_id : String) (top_k : Nat) :
    Option (List (String × ℚ)) :=
  if cf.is_trained = false then some []
  else
    match alookup cf.item_id_map item_id, cf.item_factors with
    | some item_idx, some itf =>
      match itf[item_idx]? with
      | none => none
      | some item_vector =>
        let similarities := itf.map (fun w => dot w item_vector)
        let order := (sortAsc Prod.snd similarities.enum).map Prod.fst
        let similar_indices := ((order.reverse).drop 1).take top_k
        some (similar_indices.filterMap (fun idx =>
          (alookup cf.reverse_item_map idx).map
            (fun id => (id, similarities.getD idx 0))))
    | _, _ => some []

end CollaborativeFilter

/-- Well-formedness of a trained CFModel: the trained state carries bias
and factor tables, and every index assigned by the id maps is in bounds
(this is what CollaborativeFilter.train establishes: the maps and the
tables are built over the same entity sets). -/
def CFModel.WF (cf : CFModel) : Prop :=
  cf.is_trained = true →
    ∃ ub ib uf itf, cf.user_bias = some ub ∧ cf.item_bias = some ib ∧
      cf.user_factors = some uf ∧ cf.item_factors = some itf ∧
      (∀ p ∈ cf.user_id_map, p.2 < ub.length ∧ p.2 < uf.length) ∧
      (∀ p ∈ cf.item_id_map, p.2 < ib.length ∧ p.2 < itf.length)

namespace CollaborativeFilter

theorem predict_score_isSome {cf : CFModel} (hwf : cf.WF)
    (htr : cf.is_trained = true) (user_id item_id : String) :
    (predict_score cf user_id item_id).isSome := by
  rcases hwf htr with ⟨ub, ib, uf, itf, hub, hib, huf, hitf, hwu, hwi⟩
  unfold predict_score
  cases hu : alookup cf.user_id_map user_id with
  | none =>
    rw [hib]
    cases hi : alookup cf.item_id_map item_id with
    | none => simp
    | some item_idx =>
      have hmem := alookup_eq_some_mem hi
      have hlt := (hwi _ hmem).1
      simp [List.getElem?_eq_getElem hlt]
  | some user_idx =>
    have humem := alookup_eq_some_mem hu
    have hult := hwu _ humem
    cases hi : alookup cf.item_id_map item_id with
    | none =>
      rw [hub]
      simp [List.getElem?_eq_getElem hult.1]
    | some item_idx =>
      have himem := alookup_eq_some_mem hi
      have hilt := hwi _ himem
      rw [hub, hib, huf, hitf]
      simp [List.getElem?_eq_getElem hult.1, List.getElem?_eq_getElem hilt.1,
        List.getElem?_eq_getElem hult.2, List.getElem?_eq_getElem hilt.2]

theorem predict_isSome {cf : CFModel} (hwf : cf.WF) (user_id : String)
    (item_ids : List String) :
    ∃ scores, predict cf user_id item_ids = some scores ∧
      scores.length = item_ids.length := by
  unfold predict
  cases htr : cf.is_trained with
  | false =>
    refine ⟨item_ids.map (fun _ => (0 : ℚ)), by simp, by simp⟩
  | true =>
    simp only [Bool.true_eq_false, if_false]
    exact mapMOpt_isSome (fun a _ => predict_score_isSome hwf htr user_id a)

end CollaborativeFilter

/-!
Embedding of ContentBasedRecommender (content_based.py).  Profile
dictionaries are modelled as records whose optional fields mirror the
keys the code reads with dict.get; an absent key is none and dict.get
defaults are applied at each read site, exactly as in the source.  The
settings sub-dictionary of a group is flattened to the single maxMembers
key the code reads from it.
-/

structure UserData where
  interests : List String := []
  skill_level : Option String := none
  streak : ℚ := 0
  goal_categories : List String := []

structure Candidate where
  cid : String := ""
  domains : Option (List String) := none
  success_rate : Option ℚ := none
  active_mentees : Option ℚ := none
  subject : Option String := none
  level : Option String := none
  duration : Option ℚ := none
  current_participants : Option ℚ := none
  max_participants : Option ℚ := none
  category : Option String := none
  members : Option (List String) := none
  maxMembers : Option ℚ := none

/-- The empty Python dict used as the fallback item record in the
explanation loops (next(..., {})). -/
def Candidate.empty : Candidate := {}

/-- Abstract core of sklearn cosine_similarity on two equal-length
vectors.  The exact value is irrational in general (it divides by square
roots of norms), so the model keeps it as an uninterpreted function; the
mathematical fact that cosine similarity never exceeds 1 is taken as a
hypothesis where a theorem needs it. -/
structure ContentModel where
  sim : List ℚ → List ℚ → ℚ

namespace ContentBased

/-- Subject vocabulary used by all one-hot encodings. -/
def subjects : List String :=
  ["mathematics", "programming", "data-science", "machine-learning",
   "web-development", "algorithms", "databases", "other"]

/-- Goal category vocabulary for the user profile. -/
def goal_category_list : List String :=
  ["skill-development", "career", "academic", "project", "certification"]

/-- Ordinal skill/level encoding with the dict.get default 0.66. -/
def level_mapping (s : String) : ℚ :=
  if s = "beginner" then 0.33
  else if s = "intermediate" then 0.66
  else if s = "advanced" then 1
  else 0.66

/-- ContentBasedRecommender.build_user_profile. -/
def build_user_profile (user_data : UserData) : List ℚ :=
  (subjects.map (fun subj => if subj ∈ user_data.interests then (1 : ℚ) else 0))
  ++ [level_mapping (user_data.skill_level.getD "intermediate")]
  ++ [min (user_data.streak / 100) 1]
  ++ (goal_category_list.map
        (fun cat => if cat ∈ user_data.goal_categories then (1 : ℚ) else 0))

/-- ContentBasedRecommender.build_mentor_profile. -/
def build_mentor_profile (mentor_data : Candidate) : List ℚ :=
  (subjects.map
    (fun subj => if subj ∈ mentor_data.domains.getD [] then (1 : ℚ) else 0))
  ++ [1]
  ++ [mentor_data.success_rate.getD 0.8]
  ++ [max 0 (1 - (mentor_data.active_mentees.getD 0) / 10)]
  ++ [0, 0, 0, 0, 0]

/-- ContentBasedRecommender.build_session_profile. -/
def build_session_profile (session_data : Candidate) : List ℚ :=
  (subjects.map
    (fun subj => if subj = session_data.subject.getD "other" then (1 : ℚ) else 0))
  ++ [level_mapping (session_data.level.getD "intermediate")]
  ++ [min ((session_data.duration.getD 1) / 4) 1]
  ++ [min ((session_data.current_participants.getD 0) / 20) 1]
  ++ [0, 0, 0, 0]

/-- ContentBasedRecommender.calculate_similarity: truncate both vectors
to the common length, then clamp the cosine similarity at 0. -/
def calculate_similarity (c : ContentModel) (profile1 profile2 : List ℚ) : ℚ :=
  let n := min profile1.length profile2.length
  max 0 (c.sim (profile1.take n) (profile2.take n))

/-- ContentBasedRecommender.recommend_mentors: similarity blended with a
success-rate boost, stable descending sort, truncate to top_k. -/
def recommend_mentors (c : ContentModel) (user_data : UserData)
    (mentor_list : List Candidate) (top_k : Nat) : List (String × ℚ) :=
  let user_profile := build_user_profile user_data
  let recommendations := mentor_list.map (fun mentor =>
    let similarity :=
      calculate_similarity c user_profile (build_mentor_profile mentor)
    let success_boost := (mentor.success_rate.getD 0.8) * 0.2
    (mentor.cid, similarity * 0.8 + success_boost))
  (sortDesc Prod.snd recommendations).take top_k

/-- Body of the per-session loop of
ContentBasedRecommender.recommend_sessions: similarity blended with an
availability term 1 - current/max; the division raises ZeroDivisionError
(none) when a session record carries max_participants = 0. -/
def session_score (c : ContentModel) (user_profile : List ℚ)
    (session : Candidate) : Option (String × ℚ) :=
  let similarity :=
    calculate_similarity c user_profile (build_session_profile session)
  let max_participants := session.max_participants.getD 20
  let current_participants := session.current_participants.getD 0
  if max_participants = 0 then none
  else
    let availability := 1 - current_participants / max_participants
    some (session.cid, similarity * 0.9 + availability * 0.1)

/-- ContentBasedRecommender.recommend_sessions: one score per session,
stable descending sort, truncate to top_k. -/
def recommend_sessions (c : ContentModel) (user_data : UserData)
    (session_list : List Candidate) (top_k : Nat) :
    Option (List (String × ℚ)) :=
  (mapMOpt (session_score c (build_user_profile user_data))
    session_list).map
    (fun recommendations => (sortDesc Prod.snd recommendations).take top_k)

/-- ContentBasedRecommender.recommend_groups: category and activity
matching, keeping only groups with spare capacity. -/
def recommend_groups (user_data : UserData)
    (group_list : List Candidate) (top_k : Nat) : List (String × ℚ) :=
  let recommendations := group_list.filterMap (fun group =>
    let category := (group.category.getD "General").toLower
    let category_match : ℚ := if category ∈ user_data.interests then 1 else 0.5
    let member_count : ℚ := ((group.members.getD []).length : ℚ)
    let activity_score := min (member_count / 30) 1
    let max_members := group.maxMembers.getD 50
    if member_count < max_members then
      some (group.cid, category_match * 0.6 + activity_score * 0.4)
    else none)
  (sortDesc Prod.snd recommendations).take top_k

/-- ContentBasedRecommender.explain_recommendation.  Python iterates a
set intersection whose order is unspecified; the model fixes the order
of the user's interest list. -/
def explain_recommendation (user_data : UserData) (item_data : Candidate)
    (item_type : String) : String :=
  let explanations : List String :=
    if item_type = "mentor" then
      let common_topics :=
        user_data.interests.dedup.filter
          (fun t => t ∈ (item_data.domains.getD []))
      let e1 :=
        if common_topics.isEmpty then []
        else ["Expertise in " ++ String.intercalate ", " (common_topics.take 2)]
      let success_rate := item_data.success_rate.getD 0
      let e2 :=
        if (0.8 : ℚ) < success_rate then
          [toString (pyInt (success_rate * 100)) ++ "% success rate"]
        else []
      e1 ++ e2
    else if item_type = "session" then
      let e1 :=
        if user_data.skill_level = item_data.level then
          ["Matches your " ++ item_data.level.getD "None" ++ " level"]
        else []
      let e2 :=
        match item_data.subject with
        | some s =>
          if s ∈ user_data.interests then ["Based on your interest in " ++ s]
          else []
        | none => []
      e1 ++ e2
    else if item_type = "group" then
      ["Active group with " ++ toString (item_data.members.getD []).length
        ++ " members"]
    else []
  if explanations.isEmpty then "Recommended for you"
  else String.intercalate " • " explanations

end ContentBased

/-!
Embedding of GNNRecommender (gnn_recommender.py), as consumed by the
ensemble.  The trained embedding tables live behind the abstract score
function (the dot product of the forward-propagated user and item
embeddings); recommend_items scores the candidates known to the item
index, sorts descending, truncates.
-/

structure GNNModel where
  is_trained : Bool := false
  user_id_map : List (String × Nat) := []
  item_id_map : List (String × Nat) := []
  score : Nat → Nat → ℚ := fun _ _ => 0

namespace GNN

/-- GNNRecommender.recommend_items: empty for an untrained model or an
unknown user; otherwise score the known candidates, stable descending
sort, truncate to top_k. -/
def recommend_items (g : GNNModel) (user_id : String)
    (item_candidates : List String) (top_k : Nat) : List (String × ℚ) :=
  if g.is_trained = false then []
  else
    match alookup g.user_id_map user_id with
    | none => []
    | some user_idx =>
      let scores := item_candidates.filterMap (fun item_id =>
        (alookup g.item_id_map item_id).map
          (fun item_idx => (item_id, g.score user_idx item_idx)))
      (sortDesc Prod.snd scores).take top_k

theorem recommend_items_subset (g : GNNModel) (user_id : String)
    (item_candidates : List String) (top_k : Nat) :
    ∀ p ∈ recommend_items g user_id item_candidates top_k,
      p.1 ∈ item_candidates := by
  intro p hp
  unfold recommend_items at hp
  by_cases htr : g.is_trained = false
  · simp [htr] at hp
  · rw [if_neg htr] at hp
    cases hu : alookup g.user_id_map user_id with
    | none => rw [hu] at hp; simp at hp
    | some user_idx =>
      rw [hu] at hp
      have hp2 := mem_sortDesc.mp (List.take_subset _ _ hp)
      rcases List.mem_filterMap.mp hp2 with ⟨item_id, hmem, heq⟩
      cases hl : alookup g.item_id_map item_id with
      | none => rw [hl] at heq; simp at heq
      | some item_idx =>
        rw [hl] at heq
        simp only [Option.map_some', Option.some.injEq] at heq
        rw [← heq]
        exact hmem

end GNN

/-!
Embedding of HybridEnsemble (hybrid_ensemble.py).  The coordinator state
holds the three sub-models, the ensemble method string, the weight
dictionary (three fixed keys, so a record) and the models_ready flags.
The Python methods mutate only self.weights (the temporary swap during
context-aware fusion); the recommend operations therefore return the
result paired with the post-call state.  The cid field of Candidate
models str(record.get('_id')).
-/

structure Weights where
  content : ℚ := 0.3
  collaborative : ℚ := 0.4
  gnn : ℚ := 0.3

structure HybridState where
  ensemble_method : String := "weighted"
  weights : Weights := {}
  models_ready_content : Bool := true
  models_ready_collaborative : Bool := false
  models_ready_gnn : Bool := false
  content_based : ContentModel := ⟨fun _ _ => 0⟩
  collaborative : CFModel := {}
  gnn : GNNModel := {}

namespace HybridEnsemble

/-- HybridEnsemble normalize_scores: min-max scaling onto the unit
interval, every id to 0.5 when all scores are equal; the result is a
Python dict built by repeated assignment. -/
def normalize_scores (scores : List (String × ℚ)) : List (String × ℚ) :=
  if scores.isEmpty then []
  else
    let score_values := scores.map Prod.snd
    let min_score := listMin score_values
    let max_score := listMax score_values
    if max_score = min_score then
      scores.foldl (fun d p => dictInsert d p.1 (1 / 2 : ℚ)) []
    else
      scores.foldl (fun d p =>
        dictInsert d p.1 ((p.2 - min_score) / (max_score - min_score))) []

/-- One conditional accumulation step of the weighted ensemble (the
Python statement pair score += weight * value; weight_sum += weight,
guarded by membership and readiness). -/
def weighted_step (w value : ℚ) (c : Bool) (p : ℚ × ℚ) : ℚ × ℚ :=
  if c then (p.1 + w * value, p.2 + w) else p

/-- Per-item accumulation inside the weighted ensemble: add weight times
score for each model that scored the item and is marked ready, tracking
the applied weight sum; divide by the applied weight sum when it is
positive. -/
def weighted_score (h : HybridState)
    (content_scores cf_scores gnn_scores : List (String × ℚ))
    (item_id : String) : ℚ :=
  let s1 := weighted_step h.weights.content
    ((alookup content_scores item_id).getD 0)
    ((alookup content_scores item_id).isSome && h.models_ready_content)
    (0, 0)
  let s2 := weighted_step h.weights.collaborative
    ((alookup cf_scores item_id).getD 0)
    ((alookup cf_scores item_id).isSome && h.models_ready_collaborative)
    s1
  let s3 := weighted_step h.weights.gnn
    ((alookup gnn_scores item_id).getD 0)
    ((alookup gnn_scores item_id).isSome && h.models_ready_gnn)
    s2
  if 0 < s3.2 then s3.1 / s3.2 else s3.1

/-- HybridEnsemble weighted_ensemble: per id of the union of the three
score sets, the weighted average over the ready models that scored it
(average over the weights actually applied), 0.0 when no weight applied.
Python iterates an unordered set; the model fixes first-appearance
order. -/
def weighted_ensemble (h : HybridState)
    (content_scores cf_scores gnn_scores : List (String × ℚ)) :
    List (String × ℚ) :=
  let all_items := (content_scores.map Prod.fst ++ cf_scores.map Prod.fst
    ++ gnn_scores.map Prod.fst).dedup
  all_items.map (fun item_id =>
    (item_id, weighted_score h content_scores cf_scores gnn_scores item_id))

/-- HybridEnsemble context_aware_routing: activity-based base weights,
per-kind adjustment, renormalisation to sum 1. -/
def context_aware_routing (user_id : String) (user_data : UserData)
    (recommendation_type : String) : Weights :=
  let user_activity := user_data.streak
  let base : Weights :=
    if user_activity < 5 then ⟨0.7, 0.2, 0.1⟩
    else if 30 < user_activity then ⟨0.2, 0.4, 0.4⟩
    else ⟨0.3, 0.4, 0.3⟩
  let adjusted : Weights :=
    if recommendation_type = "mentor" then
      ⟨base.content + 0.1, base.collaborative, base.gnn - 0.1⟩
    else if recommendation_type = "group" then
      ⟨base.content - 0.15, base.collaborative, base.gnn + 0.15⟩
    else base
  let total := adjusted.content + adjusted.collaborative + adjusted.gnn
  ⟨adjusted.content / total, adjusted.collaborative / total,
   adjusted.gnn / total⟩

/-- Stage 1 of the cascading funnel: the GNN proposes a broad candidate
set when ready; otherwise the fallback keeps the first 3 times top_k
candidates. -/
def cascadeStage1 (h : HybridState) (user_id : String)
    (item_candidates : List String) (top_k : Nat) : List String :=
  if h.models_ready_gnn then
    (GNN.recommend_items h.gnn user_id item_candidates
      (min item_candidates.length (top_k * 5))).map Prod.fst
  else item_candidates.take (top_k * 3)

/-- Stage 2 of the cascading funnel: collaborative filtering re-ranks and
narrows to 2 times top_k when it is ready and candidates remain. -/
def cascadeStage2 (h : HybridState) (user_id : String)
    (candidate_ids : List String) (top_k : Nat) : Option (List String) :=
  if h.models_ready_collaborative && !candidate_ids.isEmpty then
    (CollaborativeFilter.recommend_items h.collaborative user_id
      candidate_ids (top_k * 2)).map (fun l => l.map Prod.fst)
  else some candidate_ids

/-- HybridEnsemble cascading_ensemble: GNN proposes, collaborative
narrows, the content model ranks the surviving candidate records (the
record type dispatch looks for the domains/subject keys); when no record
survives, the fallback scores the surviving ids at 0.5. -/
def cascading_ensemble (h : HybridState) (user_id : String)
    (item_candidates : List String) (user_data : UserData)
    (items_data : List Candidate) (top_k : Nat) :
    Option (List (String × ℚ)) :=
  let candidate_ids := cascadeStage1 h user_id item_candidates top_k
  match cascadeStage2 h user_id candidate_ids top_k with
  | none => none
  | some candidate_ids2 =>
    let candidate_items_data :=
      items_data.filter (fun item => item.cid ∈ candidate_ids2)
    match candidate_items_data with
    | [] => some ((candidate_ids2.take top_k).map (fun cid => (cid, 1 / 2)))
    | first :: _ =>
      if first.domains.isSome then
        some (ContentBased.recommend_mentors h.content_based user_data
          candidate_items_data top_k)
      else if first.subject.isSome then
        ContentBased.recommend_sessions h.content_based user_data
          candidate_items_data top_k
      else
        some (ContentBased.recommend_groups user_data
          candidate_items_data top_k)

/-- Shared tail of the recommend operations: stable descending sort of
the fused scores, truncate to top_k, attach an explanation looked up
from the first matching candidate record (next(..., {})). -/
def rank_and_explain (user_data : UserData) (candidates : List Candidate)
    (final_scores : List (String × ℚ)) (top_k : Nat) (item_type : String) :
    List (String × ℚ × String) :=
  ((sortDesc Prod.snd final_scores).take top_k).map (fun p =>
    let item_data := (candidates.find? (fun m => m.cid == p.1)).getD
      Candidate.empty
    (p.1, p.2, ContentBased.explain_recommendation user_data item_data
      item_type))

/-- HybridEnsemble.recommend_mentors.  The pair carries the post-call
coordinator state; a none result is an exception escaping the call.  The
collaborative and GNN score dicts stay empty unless the corresponding
model is ready, exactly as in the source. -/
def recommend_mentors (h : HybridState) (user_id : String)
    (user_data : UserData) (mentor_candidates : List Candidate)
    (top_k : Nat) : Option (List (String × ℚ × String)) × HybridState :=
  if mentor_candidates.isEmpty then (some [], h)
  else
    let mentor_ids := mentor_candidates.map Candidate.cid
    let content_recs := ContentBased.recommend_mentors h.content_based
      user_data mentor_candidates mentor_candidates.length
    let content_scores := normalize_scores content_recs
    match (if h.models_ready_collaborative then
            CollaborativeFilter.recommend_items h.collaborative user_id
              mentor_ids mentor_ids.length
           else some []) with
    | none => (none, h)
    | some cf_recs =>
      let cf_scores :=
        if h.models_ready_collaborative then normalize_scores cf_recs else []
      let gnn_scores :=
        if h.models_ready_gnn then
          normalize_scores (GNN.recommend_items h.gnn user_id mentor_ids
            mentor_ids.length)
        else []
      if h.ensemble_method = "weighted" then
        let final_scores := weighted_ensemble h content_scores cf_scores
          gnn_scores
        (some (rank_and_explain user_data mentor_candidates final_scores
          top_k "mentor"), h)
      else if h.ensemble_method = "context_aware" then
        let adaptive_weights := context_aware_routing user_id user_data
          "mentor"
        let old_weights := h.weights
        let h1 := { h with weights := adaptive_weights }
        let final_scores := weighted_ensemble h1 content_scores cf_scores
          gnn_scores
        let h2 := { h1 with weights := old_weights }
        (some (rank_and_explain user_data mentor_candidates final_scores
          top_k "mentor"), h2)
      else if h.ensemble_method = "cascading" then
        match cascading_ensemble h user_id mentor_ids user_data
          mentor_candidates top_k with
        | none => (none, h)
        | some cascading_recs =>
          (some (cascading_recs.map (fun p =>
            let mentor_data := (mentor_candidates.find?
              (fun m => m.cid == p.1)).getD Candidate.empty
            (p.1, p.2, ContentBased.explain_recommendation user_data
              mentor_data "mentor"))), h)
      else
        let final_scores := content_scores
        (some (rank_and_explain user_data mentor_candidates final_scores
          top_k "mentor"), h)

/-- HybridEnsemble.recommend_sessions. -/
def recommend_sessions (h : HybridState) (user_id : String)
    (user_data : UserData) (session_candidates : List Candidate)
    (top_k : Nat) : Option (List (String × ℚ × String)) × HybridState :=
  if session_candidates.isEmpty then (some [], h)
  else
    let session_ids := session_candidates.map Candidate.cid
    match ContentBased.recommend_sessions h.content_based user_data
      session_candidates session_candidates.length with
    | none => (none, h)
    | some content_recs =>
      let content_scores := normalize_scores content_recs
      match (if h.models_ready_collaborative then
              CollaborativeFilter.recommend_items h.collaborative user_id
                session_ids session_ids.length
             else some []) with
      | none => (none, h)
      | some cf_recs =>
        let cf_scores :=
          if h.models_ready_collaborative then normalize_scores cf_recs
          else []
        let gnn_scores :=
          if h.models_ready_gnn then
            normalize_scores (GNN.recommend_items h.gnn user_id session_ids
              session_ids.length)
          else []
        if h.ensemble_method = "context_aware" then
          let adaptive_weights := context_aware_routing user_id user_data
            "session"
          let old_weights := h.weights
          let h1 := { h with weights := adaptive_weights }
          let final_scores := weighted_ensemble h1 content_scores cf_scores
            gnn_scores
          let h2 := { h1 with weights := old_weights }
          (some (rank_and_explain user_data session_candidates final_scores
            top_k "session"), h2)
        else
          let final_scores := weighted_ensemble h content_scores cf_scores
            gnn_scores
          (some (rank_and_explain user_data session_candidates final_scores
            top_k "session"), h)

/-- HybridEnsemble.recommend_groups. -/
def recommend_groups (h : HybridState) (user_id : String)
    (user_data : UserData) (group_candidates : List Candidate)
    (top_k : Nat) : Option (List (String × ℚ × String)) × HybridState :=
  if group_candidates.isEmpty then (some [], h)
  else
    let group_ids := group_candidates.map Candidate.cid
    let content_recs := ContentBased.recommend_groups user_data
      group_candidates group_candidates.length
    let content_scores := normalize_scores content_recs
    match (if h.models_ready_collaborative then
            CollaborativeFilter.recommend_items h.collaborative user_id
              group_ids group_ids.length
           else some []) with
    | none => (none, h)
    | some cf_recs =>
      let cf_scores :=
        if h.models_ready_collaborative then normalize_scores cf_recs else []
      let gnn_scores :=
        if h.models_ready_gnn then
          normalize_scores (GNN.recommend_items h.gnn user_id group_ids
            group_ids.length)
        else []
      if h.ensemble_method = "context_aware" then
        let adaptive_weights := context_aware_routing user_id user_data
          "group"
        let old_weights := h.weights
        let h1 := { h with weights := adaptive_weights }
        let final_scores := weighted_ensemble h1 content_scores cf_scores
          gnn_scores
        let h2 := { h1 with weights := old_weights }
        (some (rank_and_explain user_data group_candidates final_scores
          top_k "group"), h2)
      else
        let final_scores := weighted_ensemble h content_scores cf_scores
          gnn_scores
        (some (rank_and_explain user_data group_candidates final_scores
          top_k "group"), h)

end HybridEnsemble

/-!
Claim C1: cold-start policy of CollaborativeFilter.predict.
-/

/-- C1: for every trained CollaborativeFilter model (trained state:
bias and factor tables present, id-map indices in bounds), predict never
hits an index error (it returns one score per requested item), an
unknown user scores a known item as global_bias + item_bias of the item,
predict for an unknown user and an unknown item is exactly
[global_bias], and a known user scores an unknown item as
global_bias + user_bias of the user. -/
theorem collab_predict_cold_start (cf : CFModel) (ub ib : List ℚ)
    (uf itf : List (List ℚ))
    (htr : cf.is_trained = true)
    (hub : cf.user_bias = some ub) (hib : cf.item_bias = some ib)
    (huf : cf.user_factors = some uf) (hitf : cf.item_factors = some itf)
    (hwu : ∀ p ∈ cf.user_id_map, p.2 < ub.length ∧ p.2 < uf.length)
    (hwi : ∀ p ∈ cf.item_id_map, p.2 < ib.length ∧ p.2 < itf.length) :
    (∀ user_id item_ids, ∃ scores,
        CollaborativeFilter.predict cf user_id item_ids = some scores ∧
        scores.length = item_ids.length) ∧
    (∀ user_id item_id item_idx,
        alookup cf.user_id_map user_id = none →
        alookup cf.item_id_map item_id = some item_idx →
        CollaborativeFilter.predict_score cf user_id item_id =
          some (cf.global_bias + ib.getD item_idx 0)) ∧
    (∀ user_id item_id,
        alookup cf.user_id_map user_id = none →
        alookup cf.item_id_map item_id = none →
        CollaborativeFilter.predict cf user_id [item_id] =
          some [cf.global_bias]) ∧
    (∀ user_id user_idx item_id,
        alookup cf.user_id_map user_id = some user_idx →
        alookup cf.item_id_map item_id = none →
        CollaborativeFilter.predict_score cf user_id item_id =
          some (cf.global_bias + ub.getD user_idx 0)) := by
  have hwf : cf.WF :=
    fun _ => ⟨ub, ib, uf, itf, hub, hib, huf, hitf, hwu, hwi⟩
  refine ⟨fun user_id item_ids =>
    CollaborativeFilter.predict_isSome hwf user_id item_ids, ?_, ?_, ?_⟩
  · intro user_id item_id item_idx h1 h2
    have hlt : item_idx < ib.length := (hwi _ (alookup_eq_some_mem h2)).1
    unfold CollaborativeFilter.predict_score
    rw [h1, hib, h2]
    simp [List.getElem?_eq_getElem hlt, List.getD_eq_getElem ib 0 hlt]
  · intro user_id item_id h1 h2
    unfold CollaborativeFilter.predict
    rw [htr]
    simp only [Bool.true_eq_false, if_false, mapMOpt]
    unfold CollaborativeFilter.predict_score
    rw [h1, hib, h2]
  · intro user_id user_idx item_id h1 h2
    have hlt : user_idx < ub.length := (hwu _ (alookup_eq_some_mem h1)).1
    unfold CollaborativeFilter.predict_score
    rw [h1, h2, hub]
    simp [List.getElem?_eq_getElem hlt, List.getD_eq_getElem ub 0 hlt]

/-- Concrete trained collaborative model used to witness C1. -/
def cfWitnessModel : CFModel :=
  { user_id_map := [("u1", 0)], item_id_map := [("i1", 0)],
    reverse_item_map := [(0, "i1")],
    user_bias := some [2], item_bias := some [3],
    user_factors := some [[1]], item_factors := some [[1]],
    global_bias := 10, is_trained := true }

/-- Witness for C1 at a concrete trained model: an entirely unknown
(user, item) pair predicts exactly the global bias. -/
theorem collab_predict_cold_start_witness :
    CollaborativeFilter.predict cfWitnessModel "ghost" ["phantom"] =
      some [(10 : ℚ)] := by
  have h := (collab_predict_cold_start cfWitnessModel [2] [3] [[1]] [[1]]
    rfl rfl rfl rfl rfl (by decide) (by decide)).2.2.1 "ghost" "phantom"
    (by decide) (by decide)
  exact h

/-!
Claim C2: min-max normalisation.  Helper lemmas about the dict built by
normalize_scores.
-/

theorem foldl_dictInsert_values {f : String × ℚ → ℚ} {P : ℚ → Prop}
    (scores : List (String × ℚ)) (acc : List (String × ℚ))
    (hacc : ∀ p ∈ acc, P p.2) (hf : ∀ p ∈ scores, P (f p)) :
    ∀ p ∈ scores.foldl (fun d p => dictInsert d p.1 (f p)) acc, P p.2 := by
  induction scores generalizing acc with
  | nil => exact hacc
  | cons a t ih =>
    intro p hp
    refine ih (dictInsert acc a.1 (f a)) ?_
      (fun q hq => hf q (List.mem_cons_of_mem _ hq)) p hp
    intro q hq
    rcases mem_dictInsert hq with h | h
    · exact hacc q h
    · rw [h]; exact hf a (List.mem_cons_self _ _)

theorem foldl_dictInsert_eq_map (f : String × ℚ → ℚ) :
    ∀ (scores acc : List (String × ℚ)),
      (∀ k ∈ acc.map Prod.fst, k ∉ scores.map Prod.fst) →
      (scores.map Prod.fst).Nodup →
      scores.foldl (fun d p => dictInsert d p.1 (f p)) acc =
        acc ++ scores.map (fun p => (p.1, f p)) := by
  intro scores
  induction scores with
  | nil => intro acc _ _; simp
  | cons a t ih =>
    intro acc hdisj hnd
    have hnd2 : (a.1 :: t.map Prod.fst).Nodup := by simpa using hnd
    have ha_fresh : a.1 ∉ acc.map Prod.fst := by
      intro hmem
      exact hdisj a.1 hmem (by simp)
    rw [List.foldl_cons, dictInsert_fresh acc a.1 (f a) ha_fresh]
    rw [ih (acc ++ [(a.1, f a)]) ?_ (List.nodup_cons.mp hnd2).2]
    · simp
    · intro k hk
      simp only [List.map_append, List.mem_append] at hk
      rcases hk with hk | hk
      · intro hkt
        exact hdisj k hk (by simp [hkt])
      · simp at hk
        rw [hk]
        exact (List.nodup_cons.mp hnd2).1

theorem alookup_map_value (g : ℚ → ℚ) (scores : List (String × ℚ))
    (hnd : (scores.map Prod.fst).Nodup) (id : String) (s : ℚ)
    (hmem : (id, s) ∈ scores) :
    alookup (scores.map (fun p => (p.1, g p.2))) id = some (g s) := by
  induction scores with
  | nil => simp at hmem
  | cons a t ih =>
    have hnd2 : (a.1 :: t.map Prod.fst).Nodup := by simpa using hnd
    rcases List.mem_cons.mp hmem with h | h
    · rw [← h]
      simp [alookup]
    · have hne : a.1 ≠ id := by
        intro he
        exact (List.nodup_cons.mp hnd2).1
          (he ▸ List.mem_map.mpr ⟨(id, s), h, rfl⟩)
      simp only [List.map_cons, alookup, if_neg hne]
      exact ih (List.nodup_cons.mp hnd2).2 h

/-- Every value of the normalize_scores dict lies in the unit interval,
for every input list. -/
theorem normalize_scores_values_unit (scores : List (String × ℚ)) :
    ∀ p ∈ HybridEnsemble.normalize_scores scores, 0 ≤ p.2 ∧ p.2 ≤ 1 := by
  intro p hp
  unfold HybridEnsemble.normalize_scores at hp
  cases hemp : scores.isEmpty with
  | true => rw [hemp] at hp; simp at hp
  | false =>
    rw [hemp] at hp
    simp only [Bool.false_eq_true, if_false] at hp
    set mn := listMin (scores.map Prod.snd) with hmn
    set mx := listMax (scores.map Prod.snd) with hmx
    by_cases heq : mx = mn
    · rw [if_pos heq] at hp
      refine @foldl_dictInsert_values (fun _ => (1 / 2 : ℚ))
        (fun v => 0 ≤ v ∧ v ≤ 1) scores [] (by simp) ?_ p hp
      intro q _
      norm_num
    · rw [if_neg heq] at hp
      have hlt : mn < mx := by
        have hne : scores ≠ [] := by
          intro h; rw [h] at hemp; simp at hemp
        rcases List.exists_mem_of_ne_nil scores hne with ⟨q, hq⟩
        have h1 : mn ≤ q.2 := listMin_le (List.mem_map.mpr ⟨q, hq, rfl⟩)
        have h2 : q.2 ≤ mx := le_listMax (List.mem_map.mpr ⟨q, hq, rfl⟩)
        exact lt_of_le_of_ne (le_trans h1 h2) (Ne.symm heq)
      refine @foldl_dictInsert_values (fun q => (q.2 - mn) / (mx - mn))
        (fun v => 0 ≤ v ∧ v ≤ 1) scores [] (by simp) ?_ p hp
      intro q hq
      have h1 : mn ≤ q.2 := listMin_le (List.mem_map.mpr ⟨q, hq, rfl⟩)
      have h2 : q.2 ≤ mx := le_listMax (List.mem_map.mpr ⟨q, hq, rfl⟩)
      have hpos : 0 < mx - mn := by linarith
      constructor
      · exact div_nonneg (by linarith) (le_of_lt hpos)
      · rw [div_le_one hpos]
        linarith

/-- Shape of the normalize_scores dict when the input keys are distinct:
one binding per input pair, in input order. -/
theorem normalize_scores_eq_map (scores : List (String × ℚ))
    (hnd : (scores.map Prod.fst).Nodup) (hne : ¬ scores.isEmpty) :
    HybridEnsemble.normalize_scores scores =
      if listMax (scores.map Prod.snd) = listMin (scores.map Prod.snd) then
        scores.map (fun p => (p.1, (1 / 2 : ℚ)))
      else
        scores.map (fun p => (p.1,
          (p.2 - listMin (scores.map Prod.snd)) /
            (listMax (scores.map Prod.snd) - listMin (scores.map Prod.snd))))
    := by
  unfold HybridEnsemble.normalize_scores
  rw [if_neg hne]
  by_cases heq : listMax (scores.map Prod.snd) = listMin (scores.map Prod.snd)
  · rw [if_pos heq, if_pos heq]
    have := foldl_dictInsert_eq_map (fun _ => (1 / 2 : ℚ)) scores []
      (by simp) hnd
    simpa using this
  · rw [if_neg heq, if_neg heq]
    have := foldl_dictInsert_eq_map
      (fun p => (p.2 - listMin (scores.map Prod.snd)) /
        (listMax (scores.map Prod.snd) - listMin (scores.map Prod.snd)))
      scores [] (by simp) hnd
    simpa using this

/-- C2 counterexample: normalize_scores is a dict write loop, so when one
id occurs twice the later (lower) score overwrites the earlier one and a
maximum-scoring id ends up mapped to 0.0 instead of 1.0.  The claim, as
stated for every non-empty list of (id, score) pairs, is therefore
false. -/
theorem normalize_scores_claim_counterexample :
    ¬ (∀ scores : List (String × ℚ), scores ≠ [] →
        ∀ id s, (id, s) ∈ scores →
          (∀ p ∈ scores, p.2 ≤ s) →
          listMax (scores.map Prod.snd) ≠ listMin (scores.map Prod.snd) →
          alookup (HybridEnsemble.normalize_scores scores) id = some 1) := by
  intro hclaim
  have h := hclaim [("a", (1 : ℚ)), ("a", 0)] (by simp) "a" 1 (by simp)
    (by
      intro p hp
      rcases List.mem_cons.mp hp with h | h
      · rw [h]
      · rw [List.mem_singleton.mp h]
        norm_num)
    (by
      show listMax [(1 : ℚ), 0] ≠ listMin [(1 : ℚ), 0]
      simp only [listMax, listMin, List.foldl_cons, List.foldl_nil]
      norm_num [max_def, min_def])
  have hval : HybridEnsemble.normalize_scores [("a", (1 : ℚ)), ("a", 0)] =
      [("a", (0 : ℚ))] := by
    unfold HybridEnsemble.normalize_scores
    simp only [List.isEmpty_cons, Bool.false_eq_true, if_false,
      List.map_cons, List.map_nil, listMax, listMin, List.foldl_cons,
      List.foldl_nil]
    norm_num [max_def, min_def, dictInsert, List.foldl_cons]
  rw [hval] at h
  simp [alookup] at h

/-- C2 amended: for a non-empty score list whose ids are pairwise
distinct, normalize_scores maps every id into the unit interval, sends
every maximum-scoring id to 1.0 and every minimum-scoring id to 0.0 when
the scores are not all equal, and sends every id to 0.5 when the maximum
equals the minimum.  (The distinctness hypothesis is forced by the dict
overwrite shown in the counterexample.) -/
theorem normalize_scores_minmax (scores : List (String × ℚ))
    (hne : scores ≠ []) (hnd : (scores.map Prod.fst).Nodup) :
    (∀ p ∈ HybridEnsemble.normalize_scores scores, 0 ≤ p.2 ∧ p.2 ≤ 1) ∧
    (listMax (scores.map Prod.snd) ≠ listMin (scores.map Prod.snd) →
      ∀ id s, (id, s) ∈ scores →
        (s = listMax (scores.map Prod.snd) →
          alookup (HybridEnsemble.normalize_scores scores) id = some 1) ∧
        (s = listMin (scores.map Prod.snd) →
          alookup (HybridEnsemble.normalize_scores scores) id = some 0)) ∧
    (listMax (scores.map Prod.snd) = listMin (scores.map Prod.snd) →
      ∀ id s, (id, s) ∈ scores →
        alookup (HybridEnsemble.normalize_scores scores) id =
          some (1 / 2)) := by
  have hnis : ¬ scores.isEmpty := by simp [hne]
  refine ⟨normalize_scores_values_unit scores, ?_, ?_⟩
  · intro hneq id s hmem
    set mn := listMin (scores.map Prod.snd) with hmn
    set mx := listMax (scores.map Prod.snd) with hmx
    have hshape := normalize_scores_eq_map scores hnd hnis
    rw [if_neg hneq] at hshape
    have hlk := alookup_map_value (fun v => (v - mn) / (mx - mn)) scores hnd
      id s hmem
    rw [← hshape] at hlk
    have hd : mx - mn ≠ 0 := fun h => hneq (by linarith [sub_eq_zero.mp h])
    constructor
    · intro hs
      rw [hlk, hs]
      congr 1
      field_simp
    · intro hs
      rw [hlk, hs]
      simp
  · intro heq id s hmem
    have hshape := normalize_scores_eq_map scores hnd hnis
    rw [if_pos heq] at hshape
    have hlk := alookup_map_value (fun _ => (1 / 2 : ℚ)) scores hnd id s hmem
    rw [← hshape] at hlk
    exact hlk

/-- Witness for the amended C2 at a concrete two-element score list. -/
theorem normalize_scores_minmax_witness :
    alookup (HybridEnsemble.normalize_scores [("a", (2 : ℚ)), ("b", 0)])
      "a" = some 1 := by
  have h := ((normalize_scores_minmax [("a", (2 : ℚ)), ("b", 0)]
    (by simp) (by simp)).2.1
    (by
      show listMax [(2 : ℚ), 0] ≠ listMin [(2 : ℚ), 0]
      simp only [listMax, listMin, List.foldl_cons, List.foldl_nil]
      norm_num [max_def, min_def])
    "a" 2 (by simp)).1
    (by
      show (2 : ℚ) = listMax [(2 : ℚ), 0]
      simp only [listMax, List.foldl_cons, List.foldl_nil]
      norm_num [max_def])
  exact h

/-!
Claim C10: key set of the weighted ensemble.
-/

/-- C10: the weighted ensemble output binds exactly the union of the ids
appearing in any of the three score dicts, and an id whose scoring
models are all not ready (every dict that contains it belongs to a model
whose ready flag is false) is still bound, with final score 0.0. -/
theorem weighted_ensemble_union (h : HybridState)
    (content_scores cf_scores gnn_scores : List (String × ℚ)) :
    (∀ id, (id ∈ (HybridEnsemble.weighted_ensemble h content_scores
        cf_scores gnn_scores).map Prod.fst) ↔
      (id ∈ content_scores.map Prod.fst ∨ id ∈ cf_scores.map Prod.fst ∨
        id ∈ gnn_scores.map Prod.fst)) ∧
    (∀ id, (id ∈ content_scores.map Prod.fst ∨ id ∈ cf_scores.map Prod.fst ∨
        id ∈ gnn_scores.map Prod.fst) →
      ((alookup content_scores id).isSome → h.models_ready_content = false) →
      ((alookup cf_scores id).isSome →
        h.models_ready_collaborative = false) →
      ((alookup gnn_scores id).isSome → h.models_ready_gnn = false) →
      alookup (HybridEnsemble.weighted_ensemble h content_scores cf_scores
        gnn_scores) id = some 0) := by
  constructor
  · intro id
    unfold HybridEnsemble.weighted_ensemble
    simp [List.map_map, Function.comp, List.mem_dedup, List.mem_append]
  · intro id hmem h1 h2 h3
    have hmem2 : id ∈ (content_scores.map Prod.fst ++ cf_scores.map Prod.fst
        ++ gnn_scores.map Prod.fst).dedup := by
      rw [List.mem_dedup]
      simp only [List.mem_append]
      tauto
    unfold HybridEnsemble.weighted_ensemble
    rw [alookup_map_self _ _ id hmem2]
    have hc1 : ((alookup content_scores id).isSome &&
        h.models_ready_content) = false := by
      cases hs : (alookup content_scores id).isSome with
      | false => simp
      | true => simp [h1 hs]
    have hc2 : ((alookup cf_scores id).isSome &&
        h.models_ready_collaborative) = false := by
      cases hs : (alookup cf_scores id).isSome with
      | false => simp
      | true => simp [h2 hs]
    have hc3 : ((alookup gnn_scores id).isSome &&
        h.models_ready_gnn) = false := by
      cases hs : (alookup gnn_scores id).isSome with
      | false => simp
      | true => simp [h3 hs]
    unfold HybridEnsemble.weighted_score
    rw [hc1, hc2, hc3]
    norm_num [HybridEnsemble.weighted_step]

/-- Witness for C10: the default coordinator state (collaborative and
graph models not ready) with an id scored only by the collaborative
model keeps the id at score 0.0. -/
theorem weighted_ensemble_union_witness :
    alookup (HybridEnsemble.weighted_ensemble {} [] [("x", (5 : ℚ))] [])
      "x" = some 0 := by
  refine (weighted_ensemble_union {} [] [("x", (5 : ℚ))] []).2 "x"
    (Or.inr (Or.inl (by simp))) ?_ (fun _ => rfl) ?_
  · intro hs; simp [alookup] at hs
  · intro hs; simp [alookup] at hs

/-!
Claim C9: context-aware fusion does not leak the temporary weights.
-/

/-- C9: every recommend operation leaves the coordinator weights exactly
as they were before the call, for every ensemble method and every input
(including the paths that model a raised exception): the temporary
swap during context-aware fusion is always undone, and the only
operations between the swap and the restore are pure. -/
theorem recommend_weights_restored (h : HybridState) (user_id : String)
    (user_data : UserData) (cands : List Candidate) (top_k : Nat) :
    (HybridEnsemble.recommend_mentors h user_id user_data cands
      top_k).2.weights = h.weights ∧
    (HybridEnsemble.recommend_sessions h user_id user_data cands
      top_k).2.weights = h.weights ∧
    (HybridEnsemble.recommend_groups h user_id user_data cands
      top_k).2.weights = h.weights := by
  refine ⟨?_, ?_, ?_⟩
  · unfold HybridEnsemble.recommend_mentors
    dsimp only
    repeat' split
    all_goals rfl
  · unfold HybridEnsemble.recommend_sessions
    dsimp only
    repeat' split
    all_goals rfl
  · unfold HybridEnsemble.recommend_groups
    dsimp only
    repeat' split
    all_goals rfl

/-!
Claims C5 and C6: the cascading funnel.  Subset and length lemmas for
each model's recommend operation.
-/

theorem collab_recommend_items_subset_len {cf : CFModel} {user_id : String}
    {cands : List String} {k : Nat} {l : List (String × ℚ)}
    (heq : CollaborativeFilter.recommend_items cf user_id cands k = some l) :
    (∀ p ∈ l, p.1 ∈ cands) ∧ l.length ≤ k := by
  unfold CollaborativeFilter.recommend_items at heq
  by_cases hemp : cands.isEmpty
  · rw [if_pos hemp] at heq
    simp at heq
    subst heq
    simp
  · rw [if_neg hemp] at heq
    cases hpred : CollaborativeFilter.predict cf user_id cands with
    | none => rw [hpred] at heq; simp at heq
    | some scores =>
      rw [hpred] at heq
      simp only [Option.map_some', Option.some.injEq] at heq
      subst heq
      constructor
      · intro p hp
        have hp2 := mem_sortDesc.mp (List.take_subset _ _ hp)
        exact (List.of_mem_zip hp2).1
      · rw [List.length_take]
        exact Nat.min_le_left _ _

theorem content_recommend_mentors_subset_len (c : ContentModel)
    (u : UserData) (ml : List Candidate) (k : Nat) :
    (∀ p ∈ ContentBased.recommend_mentors c u ml k, ∃ m ∈ ml, p.1 = m.cid) ∧
    (ContentBased.recommend_mentors c u ml k).length ≤ k := by
  constructor
  · intro p hp
    unfold ContentBased.recommend_mentors at hp
    have hp2 := mem_sortDesc.mp (List.take_subset _ _ hp)
    rcases List.mem_map.mp hp2 with ⟨m, hm, hme⟩
    exact ⟨m, hm, by rw [← hme]⟩
  · unfold ContentBased.recommend_mentors
    rw [List.length_take]
    exact Nat.min_le_left _ _

theorem session_score_cid {c : ContentModel} {up : List ℚ}
    {s : Candidate} {p : String × ℚ}
    (hse : ContentBased.session_score c up s = some p) : p.1 = s.cid := by
  by_cases hz : s.max_participants.getD 20 = 0
  · simp [ContentBased.session_score, hz] at hse
  · simp only [ContentBased.session_score, if_neg hz,
      Option.some.injEq] at hse
    rw [← hse]

theorem content_recommend_sessions_subset_len {c : ContentModel}
    {u : UserData} {sl : List Candidate} {k : Nat} {l : List (String × ℚ)}
    (heq : ContentBased.recommend_sessions c u sl k = some l) :
    (∀ p ∈ l, ∃ s ∈ sl, p.1 = s.cid) ∧ l.length ≤ k := by
  unfold ContentBased.recommend_sessions at heq
  cases hmap : mapMOpt (ContentBased.session_score c
      (ContentBased.build_user_profile u)) sl with
  | none => rw [hmap] at heq; simp at heq
  | some recs =>
    rw [hmap] at heq
    simp only [Option.map_some', Option.some.injEq] at heq
    subst heq
    constructor
    · intro p hp
      have hp2 := mem_sortDesc.mp (List.take_subset _ _ hp)
      rcases mapMOpt_mem hmap p hp2 with ⟨s, hs, hse⟩
      exact ⟨s, hs, session_score_cid hse⟩
    · rw [List.length_take]
      exact Nat.min_le_left _ _

theorem content_recommend_groups_subset_len (u : UserData)
    (gl : List Candidate) (k : Nat) :
    (∀ p ∈ ContentBased.recommend_groups u gl k, ∃ g ∈ gl, p.1 = g.cid) ∧
    (ContentBased.recommend_groups u gl k).length ≤ k := by
  constructor
  · intro p hp
    unfold ContentBased.recommend_groups at hp
    have hp2 := mem_sortDesc.mp (List.take_subset _ _ hp)
    rcases List.mem_filterMap.mp hp2 with ⟨g, hg, hge⟩
    by_cases ha : ((g.members.getD []).length : ℚ) < g.maxMembers.getD 50
    · rw [if_pos ha] at hge
      simp only [Option.some.injEq] at hge
      exact ⟨g, hg, by rw [← hge]⟩
    · rw [if_neg ha] at hge
      simp at hge
  · unfold ContentBased.recommend_groups
    rw [List.length_take]
    exact Nat.min_le_left _ _

theorem gnn_recommend_items_len (g : GNNModel) (user_id : String)
    (cands : List String) (k : Nat) :
    (GNN.recommend_items g user_id cands k).length ≤ k := by
  unfold GNN.recommend_items
  by_cases htr : g.is_trained = false
  · simp [htr]
  · rw [if_neg htr]
    cases hu : alookup g.user_id_map user_id with
    | none => simp
    | some user_idx =>
      rw [List.length_take]
      exact Nat.min_le_left _ _

theorem cascadeStage1_subset (h : HybridState) (user_id : String)
    (cands : List String) (k : Nat) :
    HybridEnsemble.cascadeStage1 h user_id cands k ⊆ cands := by
  unfold HybridEnsemble.cascadeStage1
  by_cases hg : h.models_ready_gnn
  · rw [if_pos hg]
    intro id hid
    rcases List.mem_map.mp hid with ⟨p, hp, hpe⟩
    rw [← hpe]
    exact GNN.recommend_items_subset h.gnn user_id cands _ p hp
  · rw [if_neg hg]
    exact List.take_subset _ _

theorem cascadeStage2_subset {h : HybridState} {user_id : String}
    {ids : List String} {k : Nat} {ids2 : List String}
    (heq : HybridEnsemble.cascadeStage2 h user_id ids k = some ids2) :
    ids2 ⊆ ids := by
  unfold HybridEnsemble.cascadeStage2 at heq
  by_cases hc : (h.models_ready_collaborative && !ids.isEmpty) = true
  · rw [if_pos hc] at heq
    cases hcf : CollaborativeFilter.recommend_items h.collaborative user_id
      ids (k * 2) with
    | none => rw [hcf] at heq; simp at heq
    | some l =>
      rw [hcf] at heq
      simp only [Option.map_some', Option.some.injEq] at heq
      subst heq
      intro id hid
      rcases List.mem_map.mp hid with ⟨p, hp, hpe⟩
      rw [← hpe]
      exact (collab_recommend_items_subset_len hcf).1 p hp
  · rw [if_neg hc] at heq
    simp only [Option.some.injEq] at heq
    subst heq
    exact fun _ hx => hx

/-- C5: cascading fusion returns at most top_k results; every returned
id survives from stage 2, stage 2 only narrows stage 1, and stage 1 only
narrows the input candidate list -- so in particular every returned id
appeared in the stage-1 candidate superset and no stage widens its
input. -/
theorem cascading_funnel (h : HybridState) (user_id : String)
    (cands : List String) (user_data : UserData)
    (items_data : List Candidate) (k : Nat) (res : List (String × ℚ))
    (heq : HybridEnsemble.cascading_ensemble h user_id cands user_data
      items_data k = some res) :
    res.length ≤ k ∧
    (∀ p ∈ res, p.1 ∈ HybridEnsemble.cascadeStage1 h user_id cands k) ∧
    HybridEnsemble.cascadeStage1 h user_id cands k ⊆ cands ∧
    (∀ ids2, HybridEnsemble.cascadeStage2 h user_id
        (HybridEnsemble.cascadeStage1 h user_id cands k) k = some ids2 →
      ids2 ⊆ HybridEnsemble.cascadeStage1 h user_id cands k ∧
      ∀ p ∈ res, p.1 ∈ ids2) := by
  unfold HybridEnsemble.cascading_ensemble at heq
  dsimp only at heq
  cases hst2 : HybridEnsemble.cascadeStage2 h user_id
      (HybridEnsemble.cascadeStage1 h user_id cands k) k with
  | none => rw [hst2] at heq; simp at heq
  | some ids2 =>
    rw [hst2] at heq
    dsimp only at heq
    have hsub2 : ids2 ⊆ HybridEnsemble.cascadeStage1 h user_id cands k :=
      cascadeStage2_subset hst2
    have main : res.length ≤ k ∧ ∀ p ∈ res, p.1 ∈ ids2 := by
      cases hcd : items_data.filter (fun item => item.cid ∈ ids2) with
      | nil =>
        rw [hcd] at heq
        simp only [Option.some.injEq] at heq
        subst heq
        constructor
        · rw [List.length_map, List.length_take]
          exact Nat.min_le_left _ _
        · intro p hp
          rcases List.mem_map.mp hp with ⟨cid, hcid, hce⟩
          rw [← hce]
          exact List.take_subset _ _ hcid
      | cons first rest =>
        rw [hcd] at heq
        dsimp only at heq
        have hfilter : ∀ m, m ∈ items_data.filter
            (fun item => item.cid ∈ ids2) → m.cid ∈ ids2 := by
          intro m hm
          have := (List.mem_filter.mp hm).2
          exact of_decide_eq_true this
        by_cases hdom : first.domains.isSome
        · rw [if_pos hdom] at heq
          simp only [Option.some.injEq] at heq
          subst heq
          have hlem := content_recommend_mentors_subset_len h.content_based
            user_data (first :: rest) k
          refine ⟨hlem.2, ?_⟩
          intro p hp
          rcases hlem.1 p hp with ⟨m, hm, hme⟩
          rw [hme]
          exact hfilter m (hcd ▸ hm)
        · rw [if_neg hdom] at heq
          by_cases hsubj : first.subject.isSome
          · rw [if_pos hsubj] at heq
            have hlem := content_recommend_sessions_subset_len heq
            refine ⟨hlem.2, ?_⟩
            intro p hp
            rcases hlem.1 p hp with ⟨m, hm, hme⟩
            rw [hme]
            exact hfilter m (hcd ▸ hm)
          · rw [if_neg hsubj] at heq
            simp only [Option.some.injEq] at heq
            subst heq
            have hlem := content_recommend_groups_subset_len user_data
              (first :: rest) k
            refine ⟨hlem.2, ?_⟩
            intro p hp
            rcases hlem.1 p hp with ⟨m, hm, hme⟩
            rw [hme]
            exact hfilter m (hcd ▸ hm)
    refine ⟨main.1, ?_, cascadeStage1_subset h user_id cands k, ?_⟩
    · intro p hp
      exact hsub2 (main.2 p hp)
    · intro ids2x hx
      simp only [Option.some.injEq] at hx
      subst hx
      exact ⟨hsub2, main.2⟩

/-- Witness for C5 at a concrete state: default coordinator (no trained
models), one candidate id, no candidate records, top_k = 1. -/
theorem cascading_funnel_witness :
    (HybridEnsemble.cascading_ensemble {} "u" ["a"] {} [] 1 =
      some [("a", (1 / 2 : ℚ))]) ∧
    ([("a", (1 / 2 : ℚ))].length ≤ 1) := by
  have heq : HybridEnsemble.cascading_ensemble {} "u" ["a"] {} [] 1 =
      some [("a", (1 / 2 : ℚ))] := rfl
  exact ⟨heq, (cascading_funnel {} "u" ["a"] {} [] 1 _ heq).1⟩

/-- C6 counterexample: with the graph model not ready, the first stage
of the funnel is item_candidates[:top_k*3], not the full candidate list:
with four candidates and top_k = 1 the fourth candidate is dropped. -/
theorem cascading_stage1_claim_counterexample :
    HybridEnsemble.cascadeStage1 {} "u" ["a", "b", "c", "d"] 1 =
      ["a", "b", "c"] ∧
    (["a", "b", "c"] : List String) ≠ ["a", "b", "c", "d"] := by
  constructor
  · rfl
  · decide

/-- C6 amended: the first cascading stage is the graph model's top
min(number of candidates, 5 times top_k) candidates when the graph model
is ready (hence a subset of the candidates of length at most 5 times
top_k), and the first 3 times top_k candidates -- not the full list --
when it is not; the collaborative stage narrows to at most 2 times top_k
surviving ids. -/
theorem cascading_stage_sizes (h : HybridState) (user_id : String)
    (cands : List String) (k : Nat) :
    (h.models_ready_gnn = false →
      HybridEnsemble.cascadeStage1 h user_id cands k = cands.take (k * 3)) ∧
    (h.models_ready_gnn = true →
      HybridEnsemble.cascadeStage1 h user_id cands k ⊆ cands ∧
      (HybridEnsemble.cascadeStage1 h user_id cands k).length ≤ k * 5) ∧
    (∀ ids ids2, HybridEnsemble.cascadeStage2 h user_id ids k = some ids2 →
      ids2.length ≤ max (k * 2) ids.length ∧
      (h.models_ready_collaborative = true → ids.isEmpty = false →
        ids2.length ≤ k * 2)) := by
  refine ⟨?_, ?_, ?_⟩
  · intro hg
    unfold HybridEnsemble.cascadeStage1
    simp only [hg, Bool.false_eq_true, if_false]
  · intro hg
    refine ⟨cascadeStage1_subset h user_id cands k, ?_⟩
    unfold HybridEnsemble.cascadeStage1
    rw [if_pos hg, List.length_map]
    calc (GNN.recommend_items h.gnn user_id cands
        (min cands.length (k * 5))).length
        ≤ min cands.length (k * 5) :=
          gnn_recommend_items_len h.gnn user_id cands _
      _ ≤ k * 5 := Nat.min_le_right _ _
  · intro ids ids2 heq
    unfold HybridEnsemble.cascadeStage2 at heq
    by_cases hc : (h.models_ready_collaborative && !ids.isEmpty) = true
    · rw [if_pos hc] at heq
      cases hcf : CollaborativeFilter.recommend_items h.collaborative
        user_id ids (k * 2) with
      | none => rw [hcf] at heq; simp at heq
      | some l =>
        rw [hcf] at heq
        simp only [Option.map_some', Option.some.injEq] at heq
        subst heq
        have hlen : l.length ≤ k * 2 :=
          (collab_recommend_items_subset_len hcf).2
        constructor
        · rw [List.length_map]
          exact le_trans hlen (le_max_left _ _)
        · intro _ _
          rw [List.length_map]
          exact hlen
    · rw [if_neg hc] at heq
      simp only [Option.some.injEq] at heq
      subst heq
      constructor
      · exact le_max_right _ _
      · intro hcol hne
        exact absurd (by rw [hcol, hne]; rfl) hc

/-- Witness for the amended C6: with the default (graph model not ready)
state the first stage keeps exactly the first 3 times top_k
candidates. -/
theorem cascading_stage_sizes_witness :
    HybridEnsemble.cascadeStage1 {} "u" ["a", "b", "c", "d"] 1 =
      ["a", "b", "c", "d"].take 3 :=
  (cascading_stage_sizes {} "u" ["a", "b", "c", "d"] 1).1 rfl

/-!
Claim C7: get_similar_items.
-/

/-- Concrete trained model for the C7 counterexample: item a has factor
[1], item b has factor [2], so b is strictly more similar to a (dot 2)
than a is to itself (dot 1), and the slice [::-1][1:] drops b, not a. -/
def cfSimModel : CFModel :=
  { user_id_map := [], item_id_map := [("a", 0), ("b", 1)],
    reverse_item_map := [(0, "a"), (1, "b")],
    user_bias := some [], item_bias := some [0, 0],
    user_factors := some [], item_factors := some [[1], [2]],
    global_bias := 0, is_trained := true }

/-- C7 counterexample: get_similar_items drops the top-ranked entry of
the descending similarity order, which is the query item only when the
query item is the most similar to itself; with factors a = [1], b = [2]
the query item a itself is returned. -/
theorem get_similar_items_claim_counterexample :
    ∃ res, CollaborativeFilter.get_similar_items cfSimModel "a" 10 =
      some res ∧ ∃ p ∈ res, p.1 = "a" := by
  refine ⟨[("a", (1 : ℚ))], ?_, ("a", (1 : ℚ)), by simp, rfl⟩
  show CollaborativeFilter.get_similar_items cfSimModel "a" 10 =
    some [("a", (1 : ℚ))]
  norm_num [CollaborativeFilter.get_similar_items, cfSimModel, alookup,
    dot, sortAsc, insertAsc, List.enum, List.enumFrom, List.getD,
    List.filterMap_cons]

/-- C7 amended: for a trained model, get_similar_items succeeds and
returns the known items ranked descending by factor dot-product
similarity to the query item, minus the top-ranked entry; the query item
is excluded whenever it is strictly the most similar item to itself
(in general the dropped top entry need not be the query item, as the
counterexample shows). -/
theorem get_similar_items_ranking (cf : CFModel) (itf : List (List ℚ))
    (item_id : String) (item_idx : Nat) (v : List ℚ) (k : Nat)
    (htr : cf.is_trained = true)
    (hitf : cf.item_factors = some itf)
    (hlk : alookup cf.item_id_map item_id = some item_idx)
    (hv : itf[item_idx]? = some v)
    (hrev : ∀ j s, alookup cf.reverse_item_map j = some s → s = item_id →
      j = item_idx) :
    ∃ res, CollaborativeFilter.get_similar_items cf item_id k = some res ∧
      res.Pairwise (fun a b => b.2 ≤ a.2) ∧
      (∀ p ∈ res, ∃ j, j < itf.length ∧
        alookup cf.reverse_item_map j = some p.1 ∧
        p.2 = dot (itf.getD j []) v) ∧
      ((∀ j, j < itf.length → j ≠ item_idx →
          dot (itf.getD j []) v < dot v v) →
        ∀ p ∈ res, p.1 ≠ item_id) := by
  have hidx_lt : item_idx < itf.length := by
    cases hcmp : Nat.decLt item_idx itf.length with
    | isTrue h => exact h
    | isFalse h =>
      rw [List.getElem?_eq_none (Nat.le_of_not_lt h)] at hv
      exact absurd hv (by simp)
  set sims := itf.map (fun w => dot w v) with hsims
  set L := sortAsc Prod.snd sims.enum with hLdef
  set N := (L.reverse.drop 1).take k with hNdef
  set g := fun idx =>
    (alookup cf.reverse_item_map idx).map
      (fun id => (id, sims.getD idx 0)) with hgdef
  have hres : CollaborativeFilter.get_similar_items cf item_id k =
      some (N.filterMap (fun q => g q.1)) := by
    unfold CollaborativeFilter.get_similar_items
    rw [htr]
    simp only [Bool.true_eq_false, if_false]
    rw [hlk, hitf]
    dsimp only
    rw [hv]
    dsimp only
    rw [← hsims, ← hLdef, ← List.map_reverse, ← List.map_drop,
      ← List.map_take, ← hNdef, List.filterMap_map]
    rfl
  have hmemN : ∀ q ∈ N, q ∈ sims.enum := by
    intro q hq
    have h1 : q ∈ L.reverse :=
      ((List.take_sublist _ _).trans (List.drop_sublist _ _)).subset hq
    have h2 : q ∈ L := List.mem_reverse.mp h1
    exact (sortAsc_perm Prod.snd sims.enum).mem_iff.mp h2
  have henum_val : ∀ q : Nat × ℚ, q ∈ sims.enum →
      q.1 < sims.length ∧ sims.getD q.1 0 = q.2 := by
    intro q hq
    have hq2 : (q.1, q.2) ∈ sims.enum := by
      have : q = (q.1, q.2) := rfl
      rw [← this]; exact hq
    have hget := List.mk_mem_enum_iff_getElem?.mp hq2
    constructor
    · by_cases hlt : q.1 < sims.length
      · exact hlt
      · rw [List.getElem?_eq_none (Nat.le_of_not_lt hlt)] at hget
        exact absurd hget (by simp)
    · rw [List.getD_eq_getElem?_getD, hget]
      rfl
  have hNpw : N.Pairwise (fun a b => b.2 ≤ a.2) := by
    have h1 : L.reverse.Pairwise (fun a b => b.2 ≤ a.2) :=
      List.pairwise_reverse.mpr (sortAsc_pairwise Prod.snd sims.enum)
    exact List.Pairwise.sublist
      ((List.take_sublist _ _).trans (List.drop_sublist _ _)) h1
  have hgetD : ∀ j (hj : j < itf.length),
      sims.getD j 0 = dot (itf.getD j []) v := by
    intro j hj
    have hjs : j < sims.length := by
      rw [hsims, List.length_map]; exact hj
    have h1 : sims.getD j 0 = sims[j] := List.getD_eq_getElem sims 0 hjs
    have h2 : itf.getD j [] = itf[j] := List.getD_eq_getElem itf [] hj
    rw [h1, h2]
    simp [hsims]
  refine ⟨N.filterMap (fun q => g q.1), hres, ?_, ?_, ?_⟩
  · rw [List.pairwise_filterMap]
    refine List.Pairwise.imp_of_mem ?_ hNpw
    intro q1 q2 hq1 hq2 hle p1 hp1 p2 hp2
    rcases Option.map_eq_some'.mp hp1 with ⟨id1, _, hpe1⟩
    rcases Option.map_eq_some'.mp hp2 with ⟨id2, _, hpe2⟩
    rw [← hpe1, ← hpe2]
    show sims.getD q2.1 0 ≤ sims.getD q1.1 0
    have h1 := (henum_val q1 (hmemN q1 hq1)).2
    have h2 := (henum_val q2 (hmemN q2 hq2)).2
    rw [h1, h2]
    exact hle
  · intro p hp
    rcases List.mem_filterMap.mp hp with ⟨q, hq, hgq⟩
    rcases Option.map_eq_some'.mp hgq with ⟨id1, hid1, hpe⟩
    have hql := henum_val q (hmemN q hq)
    have hqlen : q.1 < itf.length := by
      have := hql.1
      rwa [hsims, List.length_map] at this
    subst hpe
    exact ⟨q.1, hqlen, hid1, hgetD q.1 hqlen⟩
  · intro hmax p hp
    rcases List.mem_filterMap.mp hp with ⟨q, hq, hgq⟩
    rcases Option.map_eq_some'.mp hgq with ⟨id1, hid1, hpe⟩
    intro hpid
    have hq_ne : q.1 ≠ item_idx → False := by
      intro hne
      exact hne (hrev q.1 id1 hid1 (by rw [← hpe] at hpid; exact hpid))
    refine hq_ne ?_
    have hself : (item_idx, dot v v) ∈ sims.enum := by
      rw [List.mk_mem_enum_iff_getElem?, hsims, List.getElem?_map, hv]
      rfl
    have hLnod : (L.reverse.map Prod.fst).Nodup := by
      rw [List.map_reverse, List.nodup_reverse]
      have hperm := (sortAsc_perm Prod.snd sims.enum).map Prod.fst
      exact hperm.nodup_iff.mpr (List.nodup_enum_map_fst sims)
    have hselfL : (item_idx, dot v v) ∈ L.reverse := by
      rw [List.mem_reverse]
      exact (sortAsc_perm Prod.snd sims.enum).mem_iff.mpr hself
    cases hLrev : L.reverse with
    | nil => rw [hLrev] at hselfL; simp at hselfL
    | cons hd tl =>
      have hhd : hd.1 = item_idx := by
        rcases List.mem_cons.mp (hLrev ▸ hselfL) with hcase | hcase
        · rw [← hcase]
        · by_contra hne
          have hhd_enum : hd ∈ sims.enum := by
            have : hd ∈ L.reverse := by rw [hLrev]; simp
            exact (sortAsc_perm Prod.snd sims.enum).mem_iff.mp
              (List.mem_reverse.mp this)
          have hhd_val := henum_val hd hhd_enum
          have hhd_lt : hd.1 < itf.length := by
            have := hhd_val.1
            rwa [hsims, List.length_map] at this
          have hstrict : dot (itf.getD hd.1 []) v < dot v v :=
            hmax hd.1 hhd_lt hne
          have hd2_eq : hd.2 = dot (itf.getD hd.1 []) v := by
            rw [← hhd_val.2]
            exact hgetD hd.1 hhd_lt
          have hdesc : L.reverse.Pairwise (fun a b => b.2 ≤ a.2) :=
            List.pairwise_reverse.mpr (sortAsc_pairwise Prod.snd sims.enum)
          have hge : dot v v ≤ hd.2 := by
            have := (List.pairwise_cons.mp (hLrev ▸ hdesc)).1
              (item_idx, dot v v) hcase
            simpa using this
          rw [hd2_eq] at hge
          exact absurd hstrict (not_lt.mpr hge)
      have hq_tl : q ∈ tl := by
        have hqrev : q ∈ L.reverse :=
          ((List.take_sublist _ _).trans (List.drop_sublist _ _)).subset hq
        have hqN : q ∈ N := hq
        have hq_drop : q ∈ L.reverse.drop 1 :=
          (List.take_sublist _ _).subset hqN
        rw [hLrev] at hq_drop
        simpa using hq_drop
      intro hq1
      have hnodup2 : hd.1 ∉ tl.map Prod.fst := by
        have := hLnod
        rw [hLrev] at this
        simp only [List.map_cons] at this
        exact (List.nodup_cons.mp this).1
      exact hnodup2 (List.mem_map.mpr ⟨q, hq_tl, by rw [hq1, hhd]⟩)

/-- Concrete trained model for the C7 witness: the query item a with
factor [2] strictly dominates (self-similarity 4 against 2), so it is
excluded from its own similar-item list. -/
def cfSimModel2 : CFModel :=
  { user_id_map := [], item_id_map := [("a", 0), ("b", 1)],
    reverse_item_map := [(0, "a"), (1, "b")],
    user_bias := some [], item_bias := some [0, 0],
    user_factors := some [], item_factors := some [[2], [1]],
    global_bias := 0, is_trained := true }

/-- Witness for the amended C7. -/
theorem get_similar_items_ranking_witness :
    ∃ res, CollaborativeFilter.get_similar_items cfSimModel2 "a" 10 =
      some res ∧ ∀ p ∈ res, p.1 ≠ "a" := by
  have hrev : ∀ j s, alookup cfSimModel2.reverse_item_map j = some s →
      s = "a" → j = 0 := by
    intro j s hl hs
    by_cases h0 : (0 : Nat) = j
    · exact h0.symm
    · simp only [cfSimModel2, alookup, if_neg h0] at hl
      by_cases h1 : (1 : Nat) = j
      · rw [if_pos h1] at hl
        simp only [Option.some.injEq] at hl
        rw [← hl] at hs
        exact absurd hs (by decide)
      · rw [if_neg h1] at hl
        exact absurd hl (by simp)
  rcases get_similar_items_ranking cfSimModel2 [[2], [1]] "a" 0 [2] 10
    rfl rfl rfl rfl hrev with ⟨res, heq, _, _, hexcl⟩
  refine ⟨res, heq, hexcl ?_⟩
  intro j hj hne
  have hj2 : j < 2 := by simpa using hj
  have hj1 : j = 1 := by omega
  subst hj1
  norm_num [dot, List.getD]

/-!
Claim C8: recommend_items is a stable descending ranking.
-/

/-- C8: for a well-formed model, a non-empty candidate list and any
top_k, recommend_items returns the prefix of length at most top_k of a
list L that is a permutation of the candidates paired with their
predicted scores, is sorted descending by score, and preserves the
input order inside every group of tied scores (the filter at each score
value is unchanged); these three properties characterise the stable
descending sort of the candidates by predicted score. -/
theorem recommend_items_ranking (cf : CFModel) (hwf : cf.WF)
    (user_id : String) (cands : List String) (hne : cands ≠ []) (k : Nat) :
    ∃ scores L,
      CollaborativeFilter.predict cf user_id cands = some scores ∧
      scores.length = cands.length ∧
      CollaborativeFilter.recommend_items cf user_id cands k =
        some (L.take k) ∧
      (L.take k).length ≤ k ∧
      List.Perm L (cands.zip scores) ∧
      L.Pairwise (fun a b => b.2 ≤ a.2) ∧
      (∀ q : ℚ, L.filter (fun p => decide (p.2 = q)) =
        (cands.zip scores).filter (fun p => decide (p.2 = q))) := by
  rcases CollaborativeFilter.predict_isSome hwf user_id cands with
    ⟨scores, hpred, hlen⟩
  refine ⟨scores, sortDesc Prod.snd (cands.zip scores), hpred, hlen, ?_, ?_,
    sortDesc_perm _ _, sortDesc_pairwise _ _,
    fun q => sortDesc_filter_key _ _ q⟩
  · unfold CollaborativeFilter.recommend_items
    rw [if_neg (by simpa [List.isEmpty_iff] using hne), hpred]
    rfl
  · rw [List.length_take]
    exact Nat.min_le_left _ _

/-- Witness for C8 at the untrained default model (predict returns
zeros) and two candidates. -/
theorem recommend_items_ranking_witness :
    ∃ scores L,
      CollaborativeFilter.predict {} "u" ["x", "y"] = some scores ∧
      scores.length = (["x", "y"] : List String).length ∧
      CollaborativeFilter.recommend_items {} "u" ["x", "y"] 1 =
        some (L.take 1) ∧
      (L.take 1).length ≤ 1 ∧
      List.Perm L ((["x", "y"] : List String).zip scores) ∧
      L.Pairwise (fun a b => b.2 ≤ a.2) ∧
      (∀ q : ℚ, L.filter (fun p => decide (p.2 = q)) =
        ((["x", "y"] : List String).zip scores).filter
          (fun p => decide (p.2 = q))) :=
  recommend_items_ranking {} (by intro h; exact absurd h (by decide))
    "u" ["x", "y"] (by simp) 1

/-!
Claims C3 and C4: score range and totality of the recommend operations.
-/

theorem context_aware_routing_nonneg (user_id : String) (u : UserData)
    (t : String) :
    0 ≤ (HybridEnsemble.context_aware_routing user_id u t).content ∧
    0 ≤ (HybridEnsemble.context_aware_routing user_id u t).collaborative ∧
    0 ≤ (HybridEnsemble.context_aware_routing user_id u t).gnn := by
  unfold HybridEnsemble.context_aware_routing
  by_cases h1 : u.streak < 5 <;> by_cases h2 : 30 < u.streak <;>
    by_cases h3 : t = "mentor" <;> by_cases h4 : t = "group" <;>
      simp [h1, h2, h3, h4] <;> norm_num

/-- A value read from a unit-interval score dict (with the Python
dict.get style default 0) is itself in the unit interval. -/
theorem alookup_getD_unit {d : List (String × ℚ)}
    (hall : ∀ p ∈ d, 0 ≤ p.2 ∧ p.2 ≤ 1) (k : String) :
    0 ≤ (alookup d k).getD 0 ∧ (alookup d k).getD 0 ≤ 1 := by
  cases hlk : alookup d k with
  | none => norm_num
  | some v =>
    have := hall _ (alookup_eq_some_mem hlk)
    simpa using this

theorem weighted_score_unit (h : HybridState)
    (hw : 0 ≤ h.weights.content ∧ 0 ≤ h.weights.collaborative ∧
      0 ≤ h.weights.gnn)
    (content_scores cf_scores gnn_scores : List (String × ℚ))
    (hc : ∀ p ∈ content_scores, 0 ≤ p.2 ∧ p.2 ≤ 1)
    (hf : ∀ p ∈ cf_scores, 0 ≤ p.2 ∧ p.2 ≤ 1)
    (hg : ∀ p ∈ gnn_scores, 0 ≤ p.2 ∧ p.2 ≤ 1)
    (item_id : String) :
    0 ≤ HybridEnsemble.weighted_score h content_scores cf_scores
      gnn_scores item_id ∧
    HybridEnsemble.weighted_score h content_scores cf_scores gnn_scores
      item_id ≤ 1 := by
  have step : ∀ (c : Bool) (p : ℚ × ℚ) (wi vi : ℚ), 0 ≤ p.1 → p.1 ≤ p.2 →
      0 ≤ wi → 0 ≤ vi → vi ≤ 1 →
      0 ≤ (HybridEnsemble.weighted_step wi vi c p).1 ∧
      (HybridEnsemble.weighted_step wi vi c p).1 ≤
        (HybridEnsemble.weighted_step wi vi c p).2 := by
    intro c p wi vi hp0 hp12 hwi hvi0 hvi1
    cases c
    · simpa [HybridEnsemble.weighted_step] using ⟨hp0, hp12⟩
    · simp only [HybridEnsemble.weighted_step, if_true]
      constructor
      · nlinarith
      · nlinarith
  have hv1 := alookup_getD_unit hc item_id
  have hv2 := alookup_getD_unit hf item_id
  have hv3 := alookup_getD_unit hg item_id
  have h1 := step ((alookup content_scores item_id).isSome &&
      h.models_ready_content) (0, 0) h.weights.content
      ((alookup content_scores item_id).getD 0)
      le_rfl le_rfl hw.1 hv1.1 hv1.2
  have h2 := step ((alookup cf_scores item_id).isSome &&
      h.models_ready_collaborative) _ h.weights.collaborative
      ((alookup cf_scores item_id).getD 0)
      h1.1 h1.2 hw.2.1 hv2.1 hv2.2
  have h3 := step ((alookup gnn_scores item_id).isSome &&
      h.models_ready_gnn) _ h.weights.gnn
      ((alookup gnn_scores item_id).getD 0)
      h2.1 h2.2 hw.2.2 hv3.1 hv3.2
  unfold HybridEnsemble.weighted_score
  dsimp only
  generalize hgen : HybridEnsemble.weighted_step h.weights.gnn
    ((alookup gnn_scores item_id).getD 0)
    ((alookup gnn_scores item_id).isSome && h.models_ready_gnn)
    (HybridEnsemble.weighted_step h.weights.collaborative
      ((alookup cf_scores item_id).getD 0)
      ((alookup cf_scores item_id).isSome && h.models_ready_collaborative)
      (HybridEnsemble.weighted_step h.weights.content
        ((alookup content_scores item_id).getD 0)
        ((alookup content_scores item_id).isSome &&
          h.models_ready_content) (0, 0))) = s3
  rw [hgen] at h3
  by_cases hpos : 0 < s3.2
  · rw [if_pos hpos]
    constructor
    · exact div_nonneg h3.1 (le_of_lt hpos)
    · rw [div_le_one hpos]
      exact h3.2
  · rw [if_neg hpos]
    refine ⟨h3.1, ?_⟩
    have hle : s3.2 ≤ 0 := le_of_not_lt hpos
    nlinarith [h3.1, h3.2]

theorem weighted_ensemble_values_unit (h : HybridState)
    (hw : 0 ≤ h.weights.content ∧ 0 ≤ h.weights.collaborative ∧
      0 ≤ h.weights.gnn)
    (content_scores cf_scores gnn_scores : List (String × ℚ))
    (hc : ∀ p ∈ content_scores, 0 ≤ p.2 ∧ p.2 ≤ 1)
    (hf : ∀ p ∈ cf_scores, 0 ≤ p.2 ∧ p.2 ≤ 1)
    (hg : ∀ p ∈ gnn_scores, 0 ≤ p.2 ∧ p.2 ≤ 1) :
    ∀ p ∈ HybridEnsemble.weighted_ensemble h content_scores cf_scores
      gnn_scores, 0 ≤ p.2 ∧ p.2 ≤ 1 := by
  intro p hp
  unfold HybridEnsemble.weighted_ensemble at hp
  rcases List.mem_map.mp hp with ⟨id, _, hpe⟩
  rw [← hpe]
  exact weighted_score_unit h hw content_scores cf_scores gnn_scores
    hc hf hg id

theorem rank_and_explain_scores (u : UserData) (cands : List Candidate)
    (fs : List (String × ℚ)) (k : Nat) (ty : String) :
    ∀ t ∈ HybridEnsemble.rank_and_explain u cands fs k ty,
      ∃ p ∈ fs, t.2.1 = p.2 := by
  intro t ht
  unfold HybridEnsemble.rank_and_explain at ht
  rcases List.mem_map.mp ht with ⟨p, hp, hte⟩
  have hpfs : p ∈ fs := mem_sortDesc.mp (List.take_subset _ _ hp)
  exact ⟨p, hpfs, by rw [← hte]⟩

/-- C3 amended: every triple returned by recommend_sessions and
recommend_groups (all methods), and by recommend_mentors under every
method except cascading, has a score in [0,1], provided the stored
weights are nonnegative (they are by construction: the defaults and
every context triple are nonnegative).  Under the cascading method
recommend_mentors forwards raw content scores, which leave [0,1] when a
candidate record carries quality fields outside their documented ranges
(see the counterexample). -/
theorem hybrid_scores_unit (h : HybridState)
    (hw : 0 ≤ h.weights.content ∧ 0 ≤ h.weights.collaborative ∧
      0 ≤ h.weights.gnn)
    (user_id : String) (u : UserData) (cands : List Candidate) (k : Nat) :
    (h.ensemble_method ≠ "cascading" →
      ∀ res h2, HybridEnsemble.recommend_mentors h user_id u cands k =
        (some res, h2) → ∀ t ∈ res, 0 ≤ t.2.1 ∧ t.2.1 ≤ 1) ∧
    (∀ res h2, HybridEnsemble.recommend_sessions h user_id u cands k =
      (some res, h2) → ∀ t ∈ res, 0 ≤ t.2.1 ∧ t.2.1 ≤ 1) ∧
    (∀ res h2, HybridEnsemble.recommend_groups h user_id u cands k =
      (some res, h2) → ∀ t ∈ res, 0 ≤ t.2.1 ∧ t.2.1 ≤ 1) := by
  have hunit_if : ∀ (b : Bool) (l : List (String × ℚ)) (p : String × ℚ),
      p ∈ (if b = true then HybridEnsemble.normalize_scores l else []) →
      0 ≤ p.2 ∧ p.2 ≤ 1 := by
    intro b l p hp
    cases b
    · simp at hp
    · rw [if_pos rfl] at hp
      exact normalize_scores_values_unit l p hp
  have hrank : ∀ (fs : List (String × ℚ)) (ty : String),
      (∀ p ∈ fs, 0 ≤ p.2 ∧ p.2 ≤ 1) →
      ∀ t ∈ HybridEnsemble.rank_and_explain u cands fs k ty,
        0 ≤ t.2.1 ∧ t.2.1 ≤ 1 := by
    intro fs ty hfs t ht
    rcases rank_and_explain_scores u cands fs k ty t ht with ⟨p, hp, hte⟩
    rw [hte]
    exact hfs p hp
  have hctxw : ∀ ty, 0 ≤ (HybridEnsemble.context_aware_routing user_id u
        ty).content ∧
      0 ≤ (HybridEnsemble.context_aware_routing user_id u
        ty).collaborative ∧
      0 ≤ (HybridEnsemble.context_aware_routing user_id u ty).gnn :=
    fun ty => context_aware_routing_nonneg user_id u ty
  refine ⟨?_, ?_, ?_⟩
  · intro hm res h2 heq t ht
    unfold HybridEnsemble.recommend_mentors at heq
    by_cases hemp : cands.isEmpty = true
    · rw [if_pos hemp] at heq
      simp only [Prod.mk.injEq, Option.some.injEq] at heq
      rcases heq with ⟨hres, -⟩
      rw [← hres] at ht
      simp at ht
    · rw [if_neg hemp] at heq
      dsimp only at heq
      cases hcf : (if h.models_ready_collaborative = true then
          CollaborativeFilter.recommend_items h.collaborative user_id
            (cands.map Candidate.cid) (cands.map Candidate.cid).length
        else some []) with
      | none => rw [hcf] at heq; simp at heq
      | some cf_recs =>
        rw [hcf] at heq
        dsimp only at heq
        by_cases hw1 : h.ensemble_method = "weighted"
        · rw [if_pos hw1] at heq
          simp only [Prod.mk.injEq, Option.some.injEq] at heq
          rcases heq with ⟨hres, -⟩
          rw [← hres] at ht
          refine hrank _ _ ?_ t ht
          exact weighted_ensemble_values_unit h hw _ _ _
            (normalize_scores_values_unit _) (hunit_if _ _) (hunit_if _ _)
        · rw [if_neg hw1] at heq
          by_cases hw2 : h.ensemble_method = "context_aware"
          · rw [if_pos hw2] at heq
            simp only [Prod.mk.injEq, Option.some.injEq] at heq
            rcases heq with ⟨hres, -⟩
            rw [← hres] at ht
            refine hrank _ _ ?_ t ht
            refine weighted_ensemble_values_unit _ ?_ _ _ _
              (normalize_scores_values_unit _) (hunit_if _ _)
              (hunit_if _ _)
            exact hctxw "mentor"
          · rw [if_neg hw2, if_neg hm] at heq
            simp only [Prod.mk.injEq, Option.some.injEq] at heq
            rcases heq with ⟨hres, -⟩
            rw [← hres] at ht
            refine hrank _ _ ?_ t ht
            exact normalize_scores_values_unit _
  · intro res h2 heq t ht
    unfold HybridEnsemble.recommend_sessions at heq
    by_cases hemp : cands.isEmpty = true
    · rw [if_pos hemp] at heq
      simp only [Prod.mk.injEq, Option.some.injEq] at heq
      rcases heq with ⟨hres, -⟩
      rw [← hres] at ht
      simp at ht
    · rw [if_neg hemp] at heq
      dsimp only at heq
      cases hcr : ContentBased.recommend_sessions h.content_based u cands
          cands.length with
      | none => rw [hcr] at heq; simp at heq
      | some content_recs =>
        rw [hcr] at heq
        dsimp only at heq
        cases hcf : (if h.models_ready_collaborative = true then
            CollaborativeFilter.recommend_items h.collaborative user_id
              (cands.map Candidate.cid) (cands.map Candidate.cid).length
          else some []) with
        | none => rw [hcf] at heq; simp at heq
        | some cf_recs =>
          rw [hcf] at heq
          dsimp only at heq
          by_cases hw2 : h.ensemble_method = "context_aware"
          · rw [if_pos hw2] at heq
            simp only [Prod.mk.injEq, Option.some.injEq] at heq
            rcases heq with ⟨hres, -⟩
            rw [← hres] at ht
            refine hrank _ _ ?_ t ht
            refine weighted_ensemble_values_unit _ ?_ _ _ _
              (normalize_scores_values_unit _) (hunit_if _ _)
              (hunit_if _ _)
            exact hctxw "session"
          · rw [if_neg hw2] at heq
            simp only [Prod.mk.injEq, Option.some.injEq] at heq
            rcases heq with ⟨hres, -⟩
            rw [← hres] at ht
            refine hrank _ _ ?_ t ht
            exact weighted_ensemble_values_unit h hw _ _ _
              (normalize_scores_values_unit _) (hunit_if _ _)
              (hunit_if _ _)
  · intro res h2 heq t ht
    unfold HybridEnsemble.recommend_groups at heq
    by_cases hemp : cands.isEmpty = true
    · rw [if_pos hemp] at heq
      simp only [Prod.mk.injEq, Option.some.injEq] at heq
      rcases heq with ⟨hres, -⟩
      rw [← hres] at ht
      simp at ht
    · rw [if_neg hemp] at heq
      dsimp only at heq
      cases hcf : (if h.models_ready_collaborative = true then
          CollaborativeFilter.recommend_items h.collaborative user_id
            (cands.map Candidate.cid) (cands.map Candidate.cid).length
        else some []) with
      | none => rw [hcf] at heq; simp at heq
      | some cf_recs =>
        rw [hcf] at heq
        dsimp only at heq
        by_cases hw2 : h.ensemble_method = "context_aware"
        · rw [if_pos hw2] at heq
          simp only [Prod.mk.injEq, Option.some.injEq] at heq
          rcases heq with ⟨hres, -⟩
          rw [← hres] at ht
          refine hrank _ _ ?_ t ht
          refine weighted_ensemble_values_unit _ ?_ _ _ _
            (normalize_scores_values_unit _) (hunit_if _ _) (hunit_if _ _)
          exact hctxw "group"
        · rw [if_neg hw2] at heq
          simp only [Prod.mk.injEq, Option.some.injEq] at heq
          rcases heq with ⟨hres, -⟩
          rw [← hres] at ht
          refine hrank _ _ ?_ t ht
          exact weighted_ensemble_values_unit h hw _ _ _
            (normalize_scores_values_unit _) (hunit_if _ _) (hunit_if _ _)

/-- Coordinator configured for cascading fusion, no trained models. -/
def hCascadingState : HybridState := { ensemble_method := "cascading" }

/-- Mentor record whose success_rate field is outside [0,1]. -/
def mOverrated : Candidate :=
  { cid := "m1", domains := some [], success_rate := some 6 }

/-- C3 counterexample: under the cascading method, recommend_mentors
returns raw content scores (similarity * 0.8 + success_rate * 0.2), so a
mentor record with success_rate = 6 receives score 6/5 > 1. -/
theorem hybrid_scores_claim_counterexample :
    ((HybridEnsemble.recommend_mentors hCascadingState "u" {}
        [mOverrated] 10).1.getD []).map (fun t => (t.1, t.2.1)) =
      [("m1", (6 : ℚ) / 5)] ∧
    ¬ ((6 : ℚ) / 5 ≤ 1) := by
  constructor
  · have hc : HybridEnsemble.cascading_ensemble hCascadingState "u"
        ([mOverrated].map Candidate.cid) {} [mOverrated] 10 =
        some [("m1", (6 : ℚ) / 5)] := by
      norm_num [HybridEnsemble.cascading_ensemble,
        HybridEnsemble.cascadeStage1, HybridEnsemble.cascadeStage2,
        hCascadingState, mOverrated, ContentBased.recommend_mentors,
        ContentBased.calculate_similarity, ContentBased.build_user_profile,
        ContentBased.build_mentor_profile, ContentBased.level_mapping,
        ContentBased.subjects, ContentBased.goal_category_list,
        sortDesc, insertDesc]
    unfold HybridEnsemble.recommend_mentors
    rw [if_neg (by decide)]
    dsimp only
    rw [if_neg (by decide)]
    dsimp only
    rw [if_neg (by decide), if_neg (by decide), if_pos (by decide), hc]
    dsimp only
    norm_num
  · norm_num

/-- Witness for the amended C3: the default weighted coordinator with a
single bare mentor record returns the single score 1/2, inside [0,1]. -/
theorem hybrid_scores_unit_witness :
    HybridEnsemble.recommend_mentors {} "u" {} [{ cid := "m" }] 5 =
      (some [("m", (1 / 2 : ℚ), "Recommended for you")], {}) ∧
    ∀ t ∈ [("m", (1 / 2 : ℚ), "Recommended for you")],
      0 ≤ t.2.1 ∧ t.2.1 ≤ 1 := by
  have heq : HybridEnsemble.recommend_mentors {} "u" {} [{ cid := "m" }] 5 =
      (some [("m", (1 / 2 : ℚ), "Recommended for you")], {}) := by
    norm_num [HybridEnsemble.recommend_mentors,
      ContentBased.recommend_mentors, ContentBased.calculate_similarity,
      ContentBased.build_user_profile, ContentBased.build_mentor_profile,
      ContentBased.level_mapping, ContentBased.subjects,
      ContentBased.goal_category_list, sortDesc, insertDesc,
      HybridEnsemble.normalize_scores, listMin, listMax, dictInsert,
      HybridEnsemble.weighted_ensemble, HybridEnsemble.weighted_score,
      HybridEnsemble.weighted_step, alookup,
      HybridEnsemble.rank_and_explain,
      ContentBased.explain_recommendation]
  refine ⟨heq, ?_⟩
  exact (hybrid_scores_unit {} (by refine ⟨?_, ?_, ?_⟩ <;> norm_num
      [HybridState.weights, Weights.content, Weights.collaborative,
        Weights.gnn])
    "u" {} [{ cid := "m" }] 5).1 (by decide) _ _ heq

/-- C4: the engine is intended never to raise for data-quality reasons,
but a session candidate with max_participants = 0 makes the availability
division raise ZeroDivisionError inside the content stage of
recommend_sessions (modelled as the none result); the empty candidate
list, by contrast, is handled and yields an empty result list. -/
theorem recommend_sessions_zero_capacity_bug :
    (HybridEnsemble.recommend_sessions {} "u" {}
        [{ cid := "s1", max_participants := some 0 }] 10).1 = none ∧
    (HybridEnsemble.recommend_sessions {} "u" {} [] 10).1 = some [] := by
  constructor
  · norm_num [HybridEnsemble.recommend_sessions,
      ContentBased.recommend_sessions, ContentBased.session_score,
      mapMOpt]
  · rfl

end FSDML
